import Mathlib

/-!
# Lifecycle adapter of `lifecycle/object.go`

A shallow embedding of the object lifecycle adapter: the three-phase pipeline
`finalize`, `create`, `record` of `syncContext`, the conditional `update`, and the bounded
retry of `removeFinalizer`.

Modelling conventions.

* Objects are values. `DeepCopyObject` is the identity on values, and an in-place mutation
  through the metadata accessor is a functional update of the object.
* A callback is handed a pointer to a deep copy. Next to its two return values it has an
  effect on the object behind that pointer, a `Mutation`; `record` returns that object when
  the callback returns no replacement.
* A Go pair `(runtime.Object, error)` is `Option Object × Option Err`; `none` is `nil`.
* The store client and the lifecycle callbacks are arbitrary functions of the history of
  calls made so far, so any deterministic or history-dependent behaviour is covered.
* Every function takes the history `hist` of earlier calls and returns, next to its Go
  result, the list of calls it issued itself, in order.
-/

namespace lifecycle

/-- Go `error`, identified by its message. -/
abbrev Err := String

/-- The fields of `metav1.Object` that the adapter reads or writes. A `nil` slice or map
is `none`. -/
structure ObjectMeta where
  name : String
  ns : String
  deletionTimestamp : Option Nat
  finalizers : Option (List String)
  annotations : Option (List (String × String))
deriving DecidableEq

/-- A non-nil `runtime.Object`. `objectMeta = none` is an object from which
`meta.Accessor` obtains no metadata accessors. `body` stands for every other field. -/
structure Object where
  objectMeta : Option ObjectMeta
  body : String
deriving DecidableEq

/-- An interface value returned by a callback: `nil`, a typed nil pointer, or an object. -/
inductive ObjRef where
  | nil
  | typedNil
  | ptr (o : Object)
deriving DecidableEq

/-- The `interface{}` handed to `sync`, when it is of a kind on which `reflect.Value.IsNil`
is defined: `nil`, a typed nil pointer, a non-nil pointer, map, slice, channel or function
that is not a `runtime.Object` (`foreign`), or an object. Values of the other kinds are the
constructor `other` of `Value`. -/
inductive Input where
  | nil
  | typedNil
  | foreign
  | object (o : Object)
deriving DecidableEq

/-- The three callbacks of `ObjectLifecycleContext`. -/
inductive Hook where
  | create
  | finalize
  | updated
deriving DecidableEq

/-- The source line that issues a store `Update`: `update` (called by `record`),
`removeFinalizer`, `setInitialized` or `addFinalizer`. -/
inductive Site where
  | record
  | removeFinalizer
  | setInitialized
  | addFinalizer
deriving DecidableEq

/-- One call leaving the adapter: a lifecycle callback, `objectClient.Update` or
`objectClient.GetNamespaced`. -/
inductive Event where
  | call (h : Hook) (obj : Object)
  | update (site : Site) (name : String) (obj : Object)
  | get (ns : String) (name : String)
deriving DecidableEq

abbrev Trace := List Event

/-- Type `ObjectLifecycleCondition`. -/
structure ObjectLifecycleCondition where
  HasCreate : Bool
  HasFinalize : Bool

/-- What a callback does in place to the object behind the pointer it is handed: it may
rewrite the metadata, when the object has any, and the other fields. The dynamic type of
the object, and with it the presence of metadata accessors, stays as it is. -/
structure Mutation where
  objectMeta : ObjectMeta → ObjectMeta
  body : String → String

/-- The callback leaves the object it is handed as it is. -/
def Mutation.id : Mutation := { objectMeta := fun m => m, body := fun b => b }

/-- The object behind the pointer after a callback has worked on it. -/
def Object.apply (o : Object) (μ : Mutation) : Object :=
  { objectMeta := o.objectMeta.map μ.objectMeta, body := μ.body o.body }

/-- Type `ObjectLifecycleContext`. `condition` is `some c` when the dynamic type of the value
also implements `ObjectLifecycleCondition`. Each callback sees the history of calls. A
callback is given by its return values (`CreateContext`, ...) and by what it does in place
to the object it is handed (`CreateMutation`, ...), by default nothing. -/
structure ObjectLifecycleContext where
  CreateContext : Trace → Object → ObjRef × Option Err
  FinalizeContext : Trace → Object → ObjRef × Option Err
  UpdatedContext : Trace → Object → ObjRef × Option Err
  condition : Option ObjectLifecycleCondition
  CreateMutation : Trace → Object → Mutation := fun _ _ => Mutation.id
  FinalizeMutation : Trace → Object → Mutation := fun _ _ => Mutation.id
  UpdatedMutation : Trace → Object → Mutation := fun _ _ => Mutation.id

/-- The part of `objectclient.ObjectClient` the adapter uses. `Update` also receives the
label of the calling line. -/
structure ObjectClient where
  Update : Trace → Site → String → Object → Option Object × Option Err
  GetNamespaced : Trace → String → String → Option Object × Option Err

structure objectLifecycleAdapter where
  name : String
  clusterScoped : Bool
  lifecycle : ObjectLifecycleContext
  objectClient : ObjectClient

def created : String := "lifecycle.cattle.io/create"

def finalizerKey : String := "controller.cattle.io/"

def ScopedFinalizerKey : String := "clusterscoped.controller.cattle.io/"

/-- The error value `errNotObject` of `k8s.io/apimachinery/pkg/api/meta`. -/
def errNotObject : Err := "object does not implement the Object interfaces"

/-- Function `meta.Accessor`: the object together with its metadata view, or `errNotObject`
for `nil` and for an object without metadata accessors. -/
def Accessor (obj : Option Object) : Except Err (Object × ObjectMeta) :=
  match obj with
  | none => Except.error errNotObject
  | some o =>
    match o.objectMeta with
    | none => Except.error errNotObject
    | some m => Except.ok (o, m)

/-- Writing through the accessor: the object with its metadata replaced. -/
def Object.withMeta (o : Object) (m : ObjectMeta) : Object :=
  { o with objectMeta := some m }

def Object.DeepCopyObject (o : Object) : Object := o

/-- Modelled from the spec: `slice.ContainsString` of package `types/slice`, which is not
among the sources; the finalizer set "contains" the key. -/
def ContainsString (slice : Option (List String)) (item : String) : Bool :=
  (slice.getD []).any (fun j => j == item)

/-- Go `append(s, x)` on a possibly nil slice. -/
def goAppend (s : Option (List String)) (x : String) : Option (List String) :=
  some (s.getD [] ++ [x])

/-- Go `m[k]` on a possibly nil map: the zero value when the key is absent. -/
def mapGet (m : Option (List (String × String))) (k : String) : String :=
  ((m.getD []).lookup k).getD ""

/-- Go `m[k] = v` on a non-nil map. -/
def mapSet (m : List (String × String)) (k v : String) : List (String × String) :=
  (k, v) :: m.filter (fun p => p.1 != k)

/-- `reflect.DeepEqual` on two maps: both nil, or both non-nil with the same bindings. -/
def mapDeepEqual : Option (List (String × String)) → Option (List (String × String)) → Bool
  | none, none => true
  | some a, some b =>
    (a.map Prod.fst ++ b.map Prod.fst).all (fun k => a.lookup k == b.lookup k)
  | _, _ => false

def ObjectMeta.deepEqual (x y : ObjectMeta) : Bool :=
  x.name == y.name && x.ns == y.ns && x.deletionTimestamp == y.deletionTimestamp
    && x.finalizers == y.finalizers && mapDeepEqual x.annotations y.annotations

/-- `reflect.DeepEqual` on two non-nil objects. -/
def DeepEqual (x y : Object) : Bool :=
  (match x.objectMeta, y.objectMeta with
    | none, none => true
    | some a, some b => a.deepEqual b
    | _, _ => false) && x.body == y.body

def objectLifecycleAdapter.createKey (o : objectLifecycleAdapter) : String :=
  created ++ "." ++ o.name

def objectLifecycleAdapter.constructFinalizerKey (o : objectLifecycleAdapter) : String :=
  if o.clusterScoped then ScopedFinalizerKey ++ o.name else finalizerKey ++ o.name

def objectLifecycleAdapter.hasFinalize (o : objectLifecycleAdapter) : Bool :=
  match o.lifecycle.condition with
  | none => true
  | some cond => cond.HasFinalize

def objectLifecycleAdapter.hasCreate (o : objectLifecycleAdapter) : Bool :=
  match o.lifecycle.condition with
  | none => true
  | some cond => cond.HasCreate

def objectLifecycleAdapter.isInitialized (o : objectLifecycleAdapter) (metadata : ObjectMeta) :
    Bool :=
  mapGet metadata.annotations o.createKey == "true"

/-- The method value selected by a hook. -/
def ObjectLifecycleContext.run (l : ObjectLifecycleContext) :
    Hook → Trace → Object → ObjRef × Option Err
  | Hook.create => l.CreateContext
  | Hook.finalize => l.FinalizeContext
  | Hook.updated => l.UpdatedContext

/-- The in-place effect of the method value selected by a hook. -/
def ObjectLifecycleContext.mutation (l : ObjectLifecycleContext) :
    Hook → Trace → Object → Mutation
  | Hook.create => l.CreateMutation
  | Hook.finalize => l.FinalizeMutation
  | Hook.updated => l.UpdatedMutation

/-- Function `checkNil`: call `f` on `obj`; a nil or typed-nil result is `nil`. -/
def checkNil (l : ObjectLifecycleContext) (hist : Trace) (obj : Object) (f : Hook) :
    (Option Object × Option Err) × Trace :=
  let r := l.run f hist obj
  match r.1 with
  | ObjRef.ptr o => ((some o, r.2), [Event.call f obj])
  | _ => ((none, r.2), [Event.call f obj])

/-- Method `update`: write `obj` unless it is nil or deeply equal to `orig`. -/
def objectLifecycleAdapter.update (o : objectLifecycleAdapter) (hist : Trace) (name : String)
    (orig obj : Option Object) : (Option Object × Option Err) × Trace :=
  match obj, orig with
  | some ob, some og =>
    if !DeepEqual og ob then
      let r := o.objectClient.Update hist Site.record name ob
      match r.1 with
      | some newObj => ((some newObj, r.2), [Event.update Site.record name ob])
      | none => ((some ob, r.2), [Event.update Site.record name ob])
    else ((some ob, none), [])
  | none, _ => ((orig, none), [])
  | some ob, none => ((some ob, none), [])

/-- Method `record`: the Record-and-Update protocol for the callback `f`. When `f` returns
no replacement and no error, the result is the deep copy as `f` has left it. -/
def objectLifecycleAdapter.record (o : objectLifecycleAdapter) (hist : Trace)
    (obj : Option Object) (f : Hook) : (Option Object × Option Err) × Trace :=
  match Accessor obj with
  | Except.error err => ((obj, some err), [])
  | Except.ok (origObj, metadata) =>
    let copy := origObj.DeepCopyObject
    let c := checkNil o.lifecycle hist copy f
    match c.1 with
    | (newObj, some err) =>
      let w := o.update (hist ++ c.2) metadata.name (some origObj) newObj
      ((w.1.1, some err), c.2 ++ w.2)
    | (some newObj, none) =>
      let w := o.update (hist ++ c.2) metadata.name (some origObj) (some newObj)
      (w.1, c.2 ++ w.2)
    | (none, none) => ((some (copy.apply (o.lifecycle.mutation f hist copy)), none), c.2)

/-- Function `maybeDeepCopy`. The pointer comparison is a comparison of values here; both
branches yield the value of `newObj`. -/
def maybeDeepCopy (old newObj : Option Object) : Option Object :=
  if old = newObj then old.map Object.DeepCopyObject else newObj

/-- The inner loop of `removeFinalizer`: the finalizers other than `name`, appended in
order to a nil slice. -/
def filterFinalizers (finalizers : Option (List String)) (name : String) :
    Option (List String) :=
  (finalizers.getD []).foldl (fun acc finalizer =>
    if finalizer = name then acc else goAppend acc finalizer) none

/-- The loop of `removeFinalizer` with `n` iterations left (`n = 3 - i`). -/
def objectLifecycleAdapter.removeFinalizerLoop (o : objectLifecycleAdapter) (name : String) :
    Nat → Trace → Option Object → (Option Object × Option Err) × Trace
  | 0, _, _ => ((none, some ("failed to remove finalizer on " ++ name)), [])
  | n + 1, hist, obj =>
    match Accessor obj with
    | Except.error err => ((none, some err), [])
    | Except.ok (ob, metadata) =>
      let metadata1 := { metadata with finalizers := filterFinalizers metadata.finalizers name }
      let ob1 := ob.withMeta metadata1
      let u := o.objectClient.Update hist Site.removeFinalizer metadata1.name ob1
      let e1 := [Event.update Site.removeFinalizer metadata1.name ob1]
      match u.2 with
      | none => ((u.1, none), e1)
      | some _ =>
        let g := o.objectClient.GetNamespaced (hist ++ e1) metadata1.ns metadata1.name
        let e2 := e1 ++ [Event.get metadata1.ns metadata1.name]
        match g.2 with
        | some err => ((none, some err), e2)
        | none =>
          let r := o.removeFinalizerLoop name n (hist ++ e2) g.1
          (r.1, e2 ++ r.2)

/-- Method `removeFinalizer`: at most three attempts. -/
def objectLifecycleAdapter.removeFinalizer (o : objectLifecycleAdapter) (hist : Trace)
    (name : String) (obj : Option Object) : (Option Object × Option Err) × Trace :=
  o.removeFinalizerLoop name 3 hist obj

/-- Method `finalize`: the finalize phase; the Boolean is `continue`. -/
def objectLifecycleAdapter.finalize (o : objectLifecycleAdapter) (hist : Trace)
    (obj : Option Object) : (Option Object × Bool × Option Err) × Trace :=
  if !o.hasFinalize then ((obj, true, none), [])
  else
    match Accessor obj with
    | Except.error err => ((obj, false, some err), [])
    | Except.ok (_, metadata) =>
      if metadata.deletionTimestamp = none then ((none, true, none), [])
      else if !ContainsString metadata.finalizers o.constructFinalizerKey then
        ((none, false, none), [])
      else
        let r := o.record hist obj Hook.finalize
        match r.1.2 with
        | some err => ((obj, false, some err), r.2)
        | none =>
          let q := o.removeFinalizer (hist ++ r.2) o.constructFinalizerKey
            (maybeDeepCopy obj r.1.1)
          ((q.1.1, false, q.1.2), r.2 ++ q.2)

/-- Method `setInitialized`. -/
def objectLifecycleAdapter.setInitialized (o : objectLifecycleAdapter) (hist : Trace)
    (obj : Option Object) : (Option Object × Option Err) × Trace :=
  match Accessor obj with
  | Except.error err => ((none, some err), [])
  | Except.ok (ob, metadata) =>
    let initialized := o.createKey
    let annotations := match metadata.annotations with
      | none => []
      | some m => m
    let metadata1 := { metadata with annotations := some (mapSet annotations initialized "true") }
    let ob1 := ob.withMeta metadata1
    (o.objectClient.Update hist Site.setInitialized metadata1.name ob1,
      [Event.update Site.setInitialized metadata1.name ob1])

/-- Method `addFinalizer`. -/
def objectLifecycleAdapter.addFinalizer (o : objectLifecycleAdapter) (hist : Trace)
    (obj : Option Object) : (Option Object × Option Err) × Trace :=
  match Accessor obj with
  | Except.error err => ((none, some err), [])
  | Except.ok (ob, metadata) =>
    if ContainsString metadata.finalizers o.constructFinalizerKey then ((obj, none), [])
    else
      let ob1 := ob.DeepCopyObject
      match Accessor (some ob1) with
      | Except.error err => ((none, some err), [])
      | Except.ok (ob2, metadata2) =>
        let metadata3 :=
          { metadata2 with finalizers := goAppend metadata2.finalizers o.constructFinalizerKey }
        let ob3 := ob2.withMeta metadata3
        (o.objectClient.Update hist Site.addFinalizer metadata3.name ob3,
          [Event.update Site.addFinalizer metadata3.name ob3])

/-- Method `create`: the create phase; the Boolean is `continue`. -/
def objectLifecycleAdapter.create (o : objectLifecycleAdapter) (hist : Trace)
    (obj : Option Object) : (Option Object × Bool × Option Err) × Trace :=
  match Accessor obj with
  | Except.error err => ((obj, false, some err), [])
  | Except.ok (_, metadata) =>
    if o.isInitialized metadata then ((none, true, none), [])
    else
      let af : (Option Object × Option Err) × Trace :=
        if o.hasFinalize then o.addFinalizer hist obj else ((obj, none), [])
      match af.1.2 with
      | some err => ((af.1.1, false, some err), af.2)
      | none =>
        if !o.hasCreate then ((af.1.1, true, none), af.2)
        else
          let r := o.record (hist ++ af.2) af.1.1 Hook.create
          match r.1.2 with
          | some err => ((r.1.1, false, some err), af.2 ++ r.2)
          | none =>
            let s := o.setInitialized (hist ++ af.2 ++ r.2) r.1.1
            ((s.1.1, false, s.1.2), af.2 ++ r.2 ++ s.2)

/-- Method `syncContext`: the entry point. -/
def objectLifecycleAdapter.syncContext (o : objectLifecycleAdapter) (hist : Trace)
    (_key : String) (inp : Input) : (Option Object × Option Err) × Trace :=
  match inp with
  | Input.nil => ((none, none), [])
  | Input.typedNil => ((none, none), [])
  | Input.foreign => ((none, none), [])
  | Input.object ob =>
    let obj := some ob
    let f := o.finalize hist obj
    if f.1.2.2.isSome || !f.1.2.1 then ((none, f.1.2.2), f.2)
    else
      let obj1 := if f.1.1.isSome then f.1.1 else obj
      let c := o.create (hist ++ f.2) obj1
      if c.1.2.2.isSome || !c.1.2.1 then ((none, c.1.2.2), f.2 ++ c.2)
      else
        let obj2 := if c.1.1.isSome then c.1.1 else obj1
        let r := o.record (hist ++ f.2 ++ c.2) obj2 Hook.updated
        (r.1, f.2 ++ c.2 ++ r.2)

/-- Method `sync`. -/
def objectLifecycleAdapter.sync (o : objectLifecycleAdapter) (hist : Trace) (key : String)
    (inp : Input) : (Option Object × Option Err) × Trace :=
  o.syncContext hist key inp

/-- Number of invocations of callback `h` in a trace. -/
def countCalls (h : Hook) (t : Trace) : Nat :=
  t.countP (fun e => match e with
    | Event.call h1 _ => h1 == h
    | _ => false)

/-- Number of store updates issued from line `s` in a trace. -/
def countUpdates (s : Site) (t : Trace) : Nat :=
  t.countP (fun e => match e with
    | Event.update s1 _ _ => s1 == s
    | _ => false)

/-- Number of `GetNamespaced` calls in a trace. -/
def countGets (t : Trace) : Nat :=
  t.countP (fun e => match e with
    | Event.get _ _ => true
    | _ => false)

/-- Number of store updates, from any line, in a trace. -/
def countAllUpdates (t : Trace) : Nat :=
  t.countP (fun e => match e with
    | Event.update _ _ _ => true
    | _ => false)

/-- The object of the last store update of a trace, if any. -/
def lastWritten (t : Trace) : Option Object :=
  t.foldl (fun acc e => match e with
    | Event.update _ _ obj => some obj
    | _ => acc) none

/-- The adapter is responsible for finalizing the record: the finalize capability is
enabled, the record has a deletion marker, and its finalizer list contains the adapter's
finalizer key. -/
def finalizing (a : objectLifecycleAdapter) (ob : Object) : Bool :=
  a.hasFinalize &&
    match ob.objectMeta with
    | none => false
    | some m => m.deletionTimestamp.isSome && ContainsString m.finalizers a.constructFinalizerKey

/-! ## Concrete adapters and records -/

/-- A store whose updates succeed and return the object they were given, and whose
re-fetch fails. -/
def echoClient : ObjectClient where
  Update := fun _ _ _ ob => (some ob, none)
  GetNamespaced := fun _ _ _ => (none, some "not found")

/-- Callbacks that return no replacement and no error; no capability query. -/
def quietLifecycle : ObjectLifecycleContext where
  CreateContext := fun _ _ => (ObjRef.nil, none)
  FinalizeContext := fun _ _ => (ObjRef.nil, none)
  UpdatedContext := fun _ _ => (ObjRef.nil, none)
  condition := none

/-- A namespaced adapter named `a`. -/
def demoAdapter : objectLifecycleAdapter :=
  { name := "a", clusterScoped := false, lifecycle := quietLifecycle, objectClient := echoClient }

def freshMeta : ObjectMeta :=
  { name := "r1", ns := "", deletionTimestamp := none, finalizers := some [],
    annotations := some [] }

/-- The record `r1`: no deletion marker, no annotations, no finalizers. -/
def freshRecord : Object := { objectMeta := some freshMeta, body := "" }

def initializedMeta : ObjectMeta :=
  { name := "r1", ns := "", deletionTimestamp := none,
    finalizers := some ["controller.cattle.io/a"],
    annotations := some [("lifecycle.cattle.io/create.a", "true")] }

/-- The record `r1` after a completed create phase of `demoAdapter`. -/
def initializedRecord : Object := { objectMeta := some initializedMeta, body := "" }


def tombMeta : ObjectMeta :=
  { name := "r1", ns := "", deletionTimestamp := some 1,
    finalizers := some ["controller.cattle.io/a"], annotations := none }

/-- The record `r1` with a deletion marker and exactly the finalizer of `demoAdapter`. -/
def tombRecord : Object := { objectMeta := some tombMeta, body := "" }

/-- The record `tombRecord` with the finalizer of `demoAdapter` removed. -/
def tombReleased : Object :=
  { objectMeta := some { tombMeta with finalizers := none }, body := "" }

/-- Callbacks of which `onFinalize` fails with `boom`; no capability query. -/
def failingFinalize : ObjectLifecycleContext where
  CreateContext := fun _ _ => (ObjRef.nil, none)
  FinalizeContext := fun _ _ => (ObjRef.nil, some "boom")
  UpdatedContext := fun _ _ => (ObjRef.nil, none)
  condition := none

def failingAdapter : objectLifecycleAdapter :=
  { name := "a", clusterScoped := false, lifecycle := failingFinalize,
    objectClient := echoClient }

/-- A store whose every update is rejected with a conflict and whose re-fetch fails. -/
def conflictClient : ObjectClient where
  Update := fun _ _ _ _ => (none, some "conflict")
  GetNamespaced := fun _ _ _ => (none, some "not found")

def conflictAdapter : objectLifecycleAdapter :=
  { name := "a", clusterScoped := false, lifecycle := quietLifecycle,
    objectClient := conflictClient }

/-- A store whose every update is rejected with a conflict and whose re-fetch returns the
record `tombRecord`. -/
def contendedClient : ObjectClient where
  Update := fun _ _ _ _ => (none, some "conflict")
  GetNamespaced := fun _ _ _ => (some tombRecord, none)

def contendedAdapter : objectLifecycleAdapter :=
  { name := "a", clusterScoped := false, lifecycle := quietLifecycle,
    objectClient := contendedClient }

/-- Callbacks that return the object they were given; no capability query. -/
def identityLifecycle : ObjectLifecycleContext where
  CreateContext := fun _ o => (ObjRef.ptr o, none)
  FinalizeContext := fun _ o => (ObjRef.ptr o, none)
  UpdatedContext := fun _ o => (ObjRef.ptr o, none)
  condition := none

def identityAdapter : objectLifecycleAdapter :=
  { name := "a", clusterScoped := false, lifecycle := identityLifecycle,
    objectClient := echoClient }

/-- Callbacks that return nothing, with a capability query that disables the finalize
phase and enables the create phase. -/
def noFinalizeLifecycle : ObjectLifecycleContext where
  CreateContext := fun _ _ => (ObjRef.nil, none)
  FinalizeContext := fun _ _ => (ObjRef.nil, none)
  UpdatedContext := fun _ _ => (ObjRef.nil, none)
  condition := some { HasCreate := true, HasFinalize := false }

def noFinalizeAdapter : objectLifecycleAdapter :=
  { name := "a", clusterScoped := false, lifecycle := noFinalizeLifecycle,
    objectClient := echoClient }

def foreignTombMeta : ObjectMeta :=
  { name := "r1", ns := "", deletionTimestamp := some 1,
    finalizers := some ["controller.cattle.io/b"], annotations := none }

/-- The record `r1` with a deletion marker and the finalizer of another adapter only. -/
def foreignTomb : Object := { objectMeta := some foreignTombMeta, body := "" }

/-- A non-nil `runtime.Object` without metadata accessors. -/
def bareObject : Object := { objectMeta := none, body := "" }

/-! ## The public constructors -/

/-- Type `ObjectLifecycle`: the three callbacks without a context. `condition` is `some c`
when the dynamic type of the value also implements `ObjectLifecycleCondition`. -/
structure ObjectLifecycle where
  Create : Trace → Object → ObjRef × Option Err
  Finalize : Trace → Object → ObjRef × Option Err
  Updated : Trace → Object → ObjRef × Option Err
  condition : Option ObjectLifecycleCondition
  CreateMutation : Trace → Object → Mutation := fun _ _ => Mutation.id
  FinalizeMutation : Trace → Object → Mutation := fun _ _ => Mutation.id
  UpdatedMutation : Trace → Object → Mutation := fun _ _ => Mutation.id

/-- Function `ToContext`. The result is an `*ObjectLifecycleContextFuncs`, a type whose
method set is `CreateContext`, `FinalizeContext` and `UpdatedContext` only: it does not
implement `ObjectLifecycleCondition`, whatever the wrapped value implements. -/
def ToContext (lifecycle : ObjectLifecycle) : ObjectLifecycleContext :=
  { CreateContext := fun hist obj => lifecycle.Create hist obj
    UpdatedContext := fun hist obj => lifecycle.Updated hist obj
    FinalizeContext := fun hist obj => lifecycle.Finalize hist obj
    condition := none
    CreateMutation := fun hist obj => lifecycle.CreateMutation hist obj
    UpdatedMutation := fun hist obj => lifecycle.UpdatedMutation hist obj
    FinalizeMutation := fun hist obj => lifecycle.FinalizeMutation hist obj }

/-- The adapter value `o` built by `NewObjectLifecycleAdapter`. -/
def newAdapter (name : String) (clusterScoped : Bool) (lifecycle : ObjectLifecycle)
    (objectClient : ObjectClient) : objectLifecycleAdapter :=
  { name := name, clusterScoped := clusterScoped, lifecycle := ToContext lifecycle,
    objectClient := objectClient }

/-- Function `NewObjectLifecycleAdapter`: the method value `o.sync`. -/
def NewObjectLifecycleAdapter (name : String) (clusterScoped : Bool)
    (lifecycle : ObjectLifecycle) (objectClient : ObjectClient) :
    Trace → String → Input → (Option Object × Option Err) × Trace :=
  (newAdapter name clusterScoped lifecycle objectClient).sync

/-- Function `NewObjectLifecycleAdapterContext`: the method value `o.syncContext`. -/
def NewObjectLifecycleAdapterContext (name : String) (clusterScoped : Bool)
    (lifecycle : ObjectLifecycleContext) (objectClient : ObjectClient) :
    Trace → String → Input → (Option Object × Option Err) × Trace :=
  (objectLifecycleAdapter.mk name clusterScoped lifecycle objectClient).syncContext

/-- Callbacks that return nothing, with a capability query that disables both the create
and the finalize phase. -/
def disabledLifecycle : ObjectLifecycle where
  Create := fun _ _ => (ObjRef.nil, none)
  Finalize := fun _ _ => (ObjRef.nil, none)
  Updated := fun _ _ => (ObjRef.nil, none)
  condition := some { HasCreate := false, HasFinalize := false }

/-- The callbacks of `disabledLifecycle` as an `ObjectLifecycleContext` that implements
the capability query itself. -/
def disabledLifecycleContext : ObjectLifecycleContext where
  CreateContext := fun _ _ => (ObjRef.nil, none)
  FinalizeContext := fun _ _ => (ObjRef.nil, none)
  UpdatedContext := fun _ _ => (ObjRef.nil, none)
  condition := some { HasCreate := false, HasFinalize := false }

/-- Callbacks that return nothing, with a capability query that enables the finalize
phase and disables the create phase. -/
def noCreateLifecycle : ObjectLifecycleContext where
  CreateContext := fun _ _ => (ObjRef.nil, none)
  FinalizeContext := fun _ _ => (ObjRef.nil, none)
  UpdatedContext := fun _ _ => (ObjRef.nil, none)
  condition := some { HasCreate := false, HasFinalize := true }

/-- An adapter with create disabled in front of a store that accepts every update. -/
def noCreateAdapter : objectLifecycleAdapter :=
  { name := "a", clusterScoped := false, lifecycle := noCreateLifecycle,
    objectClient := echoClient }

/-- An adapter with create disabled in front of a store that rejects every update. -/
def noCreateConflictAdapter : objectLifecycleAdapter :=
  { name := "a", clusterScoped := false, lifecycle := noCreateLifecycle,
    objectClient := conflictClient }

/-- Callbacks of which `onUpdate` fails with `boom` and returns a changed record. -/
def failingUpdated : ObjectLifecycleContext where
  CreateContext := fun _ _ => (ObjRef.nil, none)
  FinalizeContext := fun _ _ => (ObjRef.nil, none)
  UpdatedContext := fun _ _ => (ObjRef.ptr tombRecord, some "boom")
  condition := none

def failingUpdatedAdapter : objectLifecycleAdapter :=
  { name := "a", clusterScoped := false, lifecycle := failingUpdated,
    objectClient := conflictClient }

/-- The finalizer step of `create`: `addFinalizer` when the finalize capability is
enabled, the object unchanged otherwise. -/
def objectLifecycleAdapter.createFinalizerStep (o : objectLifecycleAdapter) (hist : Trace)
    (obj : Option Object) : (Option Object × Option Err) × Trace :=
  if o.hasFinalize then o.addFinalizer hist obj else ((obj, none), [])

/-- The Record-and-Update step of `create`: `record` of `onCreate` on the outcome of the
finalizer step. -/
def objectLifecycleAdapter.createRecordStep (o : objectLifecycleAdapter) (hist : Trace)
    (obj : Option Object) : (Option Object × Option Err) × Trace :=
  o.record (hist ++ (o.createFinalizerStep hist obj).2) (o.createFinalizerStep hist obj).1.1
    Hook.create

/-- The annotation step of `create`: `setInitialized` on the outcome of the
Record-and-Update step. -/
def objectLifecycleAdapter.createAnnotationStep (o : objectLifecycleAdapter) (hist : Trace)
    (obj : Option Object) : (Option Object × Option Err) × Trace :=
  o.setInitialized
    (hist ++ (o.createFinalizerStep hist obj).2 ++ (o.createRecordStep hist obj).2)
    (o.createRecordStep hist obj).1.1

/-- A cluster-scoped adapter named `a`. -/
def scopedAdapter : objectLifecycleAdapter :=
  { name := "a", clusterScoped := true, lifecycle := quietLifecycle, objectClient := echoClient }

/-- The object one attempt of `removeFinalizer` hands to the store: its base object with
the filtered finalizer list. -/
def attemptObject (name : String) (ob : Object) (m : ObjectMeta) : Object :=
  ob.withMeta { m with finalizers := filterFinalizers m.finalizers name }

/-- The error of `removeFinalizer` after its last attempt. -/
def exhaustedError (name : String) : Err := "failed to remove finalizer on " ++ name

/-! ## Callbacks that work in place, and inputs of any kind -/

/-- Callbacks of which `onCreate` clears the finalizer list of the object it is handed, in
place, and returns no replacement and no error; no capability query. -/
def strippingLifecycle : ObjectLifecycleContext where
  CreateContext := fun _ _ => (ObjRef.nil, none)
  FinalizeContext := fun _ _ => (ObjRef.nil, none)
  UpdatedContext := fun _ _ => (ObjRef.nil, none)
  condition := none
  CreateMutation := fun _ _ =>
    { objectMeta := fun m => { m with finalizers := none }, body := fun b => b }

def strippingAdapter : objectLifecycleAdapter :=
  { name := "a", clusterScoped := false, lifecycle := strippingLifecycle,
    objectClient := echoClient }

/-- The record `freshRecord` as `strippingAdapter` writes it last: initialized, without
finalizers. -/
def strippedRecord : Object :=
  { objectMeta := some { freshMeta with
      finalizers := none, annotations := some [("lifecycle.cattle.io/create.a", "true")] },
    body := "" }

/-- Callbacks of which `onFinalize` appends the finalizer `example.io/hold` to the object it
is handed, in place, and returns `(nil, nil)`; no capability query. -/
def holdingLifecycle : ObjectLifecycleContext where
  CreateContext := fun _ _ => (ObjRef.nil, none)
  FinalizeContext := fun _ _ => (ObjRef.nil, none)
  UpdatedContext := fun _ _ => (ObjRef.nil, none)
  condition := none
  FinalizeMutation := fun _ _ =>
    { objectMeta := fun m => { m with finalizers := goAppend m.finalizers "example.io/hold" },
      body := fun b => b }

def holdingAdapter : objectLifecycleAdapter :=
  { name := "a", clusterScoped := false, lifecycle := holdingLifecycle,
    objectClient := echoClient }

/-- The record `tombRecord` as `holdingAdapter` writes it: the finalizer of the adapter is
gone, the finalizer `example.io/hold` is there. -/
def tombHeld : Object :=
  { objectMeta := some { tombMeta with finalizers := some ["example.io/hold"] }, body := "" }

/-- A value of type `interface{}`: of a kind on which `reflect.Value.IsNil` is defined
(`nil`, a pointer, map, slice, channel or function), or of another kind (a string, a number,
a struct value). -/
inductive Value where
  | nillable (inp : Input)
  | other
deriving DecidableEq

/-- Method `sync` on a value of any kind. The result is `none` when the call does not return:
on a value of a kind without a nil, `reflect.ValueOf(in).IsNil()` in the first condition of
`syncContext` panics, before the type assertion. -/
def objectLifecycleAdapter.syncValue (o : objectLifecycleAdapter) (hist : Trace)
    (key : String) : Value → Option ((Option Object × Option Err) × Trace)
  | Value.nillable inp => some (o.sync hist key inp)
  | Value.other => none

/-! ## Counting calls -/

@[simp] theorem countCalls_nil (h : Hook) : countCalls h [] = 0 := rfl

@[simp] theorem countCalls_append (h : Hook) (s t : Trace) :
    countCalls h (s ++ t) = countCalls h s + countCalls h t := by
  simp [countCalls, List.countP_append]

@[simp] theorem countCalls_cons_call (h g : Hook) (ob : Object) (t : Trace) :
    countCalls h (Event.call g ob :: t) = (if g = h then 1 else 0) + countCalls h t := by
  by_cases hg : g = h <;> simp [countCalls, List.countP_cons, hg, Nat.add_comm]

@[simp] theorem countCalls_cons_update (h : Hook) (s : Site) (n : String) (ob : Object)
    (t : Trace) : countCalls h (Event.update s n ob :: t) = countCalls h t := by
  simp [countCalls, List.countP_cons]

@[simp] theorem countCalls_cons_get (h : Hook) (n1 n2 : String) (t : Trace) :
    countCalls h (Event.get n1 n2 :: t) = countCalls h t := by
  simp [countCalls, List.countP_cons]

theorem Accessor_some (ob : Object) (m : ObjectMeta) (hm : ob.objectMeta = some m) :
    Accessor (some ob) = Except.ok (ob, m) := by
  simp [Accessor, hm]

theorem Accessor_noMeta (ob : Object) (hm : ob.objectMeta = none) :
    Accessor (some ob) = Except.error errNotObject := by
  simp [Accessor, hm]

theorem Accessor_ok_inv (obj : Option Object) (ob : Object) (m : ObjectMeta)
    (h : Accessor obj = Except.ok (ob, m)) : obj = some ob ∧ ob.objectMeta = some m := by
  unfold Accessor at h
  split at h
  · cases h
  · split at h
    · cases h
    · rename_i o _ m1 hm1
      cases h
      exact ⟨rfl, hm1⟩

@[simp] theorem checkNil_trace (l : ObjectLifecycleContext) (hist : Trace) (ob : Object)
    (f : Hook) : (checkNil l hist ob f).2 = [Event.call f ob] := by
  unfold checkNil
  dsimp only
  split <;> rfl

theorem checkNil_err (l : ObjectLifecycleContext) (hist : Trace) (ob : Object) (f : Hook) :
    (checkNil l hist ob f).1.2 = (l.run f hist ob).2 := by
  unfold checkNil
  dsimp only
  split <;> rfl

@[simp] theorem update_countCalls (a : objectLifecycleAdapter) (hist : Trace) (n : String)
    (orig obj : Option Object) (h : Hook) : countCalls h (a.update hist n orig obj).2 = 0 := by
  unfold objectLifecycleAdapter.update
  split
  · split
    · dsimp only
      split <;> simp
    · rfl
  · rfl
  · rfl

theorem record_countCalls_ne (a : objectLifecycleAdapter) (hist : Trace) (obj : Option Object)
    (f h : Hook) (hne : f ≠ h) : countCalls h (a.record hist obj f).2 = 0 := by
  unfold objectLifecycleAdapter.record
  split
  · rfl
  · dsimp only
    split <;> simp [hne]

theorem record_countCalls_self (a : objectLifecycleAdapter) (hist : Trace) (ob : Object)
    (m : ObjectMeta) (hm : ob.objectMeta = some m) (f : Hook) :
    countCalls f (a.record hist (some ob) f).2 = 1 := by
  unfold objectLifecycleAdapter.record
  rw [Accessor_some ob m hm]
  dsimp only
  split <;> simp

@[simp] theorem removeFinalizerLoop_countCalls (a : objectLifecycleAdapter) (name : String)
    (h : Hook) (n : Nat) : ∀ (hist : Trace) (obj : Option Object),
    countCalls h (a.removeFinalizerLoop name n hist obj).2 = 0 := by
  induction n with
  | zero => intro hist obj; rfl
  | succ k ih =>
    intro hist obj
    unfold objectLifecycleAdapter.removeFinalizerLoop
    split
    · rfl
    · dsimp only
      split
      · simp
      · split
        · simp
        · simp [ih]


/-! ## The finalize phase -/

/-- When the finalize phase lets the pipeline continue it has issued no call, reports no
error, and hands back either the object itself or nil. -/
theorem finalize_continue (a : objectLifecycleAdapter) (hist : Trace) (ob : Object)
    (hc : (a.finalize hist (some ob)).1.2.1 = true) :
    (a.finalize hist (some ob)).2 = [] ∧ (a.finalize hist (some ob)).1.2.2 = none ∧
      ((a.finalize hist (some ob)).1.1 = some ob ∨ (a.finalize hist (some ob)).1.1 = none) := by
  unfold objectLifecycleAdapter.finalize at hc ⊢
  split
  · simp
  · split
    · rename_i h1 _ _ _
      rw [if_neg h1] at hc
      simp_all
    · rename_i h1 _ _ _ hacc
      rw [if_neg h1, hacc] at hc
      dsimp only at hc ⊢
      split
      · simp
      · rename_i h2
        rw [if_neg h2] at hc
        split
        · rename_i h3
          rw [if_pos h3] at hc
          simp at hc
        · rename_i h3
          rw [if_neg h3] at hc
          split at hc <;> simp at hc

/-- The object handed to the create phase is the input object whenever the finalize phase
lets the pipeline continue. -/
theorem sync_object_of_continue (a : objectLifecycleAdapter) (hist : Trace) (key : String)
    (ob : Object) (hc : (a.finalize hist (some ob)).1.2.1 = true) :
    a.syncContext hist key (Input.object ob) =
      (let c := a.create hist (some ob)
       if c.1.2.2.isSome || !c.1.2.1 then ((none, c.1.2.2), c.2)
       else
         let obj2 := if c.1.1.isSome then c.1.1 else some ob
         let r := a.record (hist ++ c.2) obj2 Hook.updated
         (r.1, c.2 ++ r.2)) := by
  obtain ⟨h1, h2, h3⟩ := finalize_continue a hist ob hc
  unfold objectLifecycleAdapter.syncContext
  dsimp only
  rw [h1, h2, hc]
  have hobj : (if (a.finalize hist (some ob)).1.1.isSome = true
      then (a.finalize hist (some ob)).1.1 else some ob) = some ob := by
    rcases h3 with h3 | h3 <;> simp [h3]
  rw [hobj]
  simp

theorem sync_object_of_stop (a : objectLifecycleAdapter) (hist : Trace) (key : String)
    (ob : Object) (hc : (a.finalize hist (some ob)).1.2.1 = false) :
    a.syncContext hist key (Input.object ob) =
      ((none, (a.finalize hist (some ob)).1.2.2), (a.finalize hist (some ob)).2) := by
  unfold objectLifecycleAdapter.syncContext
  dsimp only
  rw [hc]
  simp

theorem finalize_countCalls_ne (a : objectLifecycleAdapter) (hist : Trace) (obj : Option Object)
    (h : Hook) (hne : Hook.finalize ≠ h) : countCalls h (a.finalize hist obj).2 = 0 := by
  unfold objectLifecycleAdapter.finalize
  split
  · rfl
  · split
    · rfl
    · dsimp only
      split
      · rfl
      · split
        · rfl
        · split
          · exact record_countCalls_ne a hist obj Hook.finalize h hne
          · simp [record_countCalls_ne a hist obj Hook.finalize h hne,
              objectLifecycleAdapter.removeFinalizer]

theorem create_initialized (a : objectLifecycleAdapter) (hist : Trace) (ob : Object)
    (m : ObjectMeta) (hm : ob.objectMeta = some m) (hi : a.isInitialized m = true) :
    a.create hist (some ob) = ((none, true, none), []) := by
  unfold objectLifecycleAdapter.create
  rw [Accessor_some ob m hm]
  simp [hi]

/-! ## The one-shot guard of the create phase -/

/-- An initialized record never reaches `onCreate`. -/
theorem sync_initialized_countCalls_create (a : objectLifecycleAdapter) (hist : Trace)
    (key : String) (ob : Object) (m : ObjectMeta) (hm : ob.objectMeta = some m)
    (hi : a.isInitialized m = true) :
    countCalls Hook.create (a.syncContext hist key (Input.object ob)).2 = 0 := by
  cases hc : (a.finalize hist (some ob)).1.2.1 with
  | true =>
    rw [sync_object_of_continue a hist key ob hc, create_initialized a hist ob m hm hi]
    simp [record_countCalls_ne]
  | false =>
    rw [sync_object_of_stop a hist key ob hc]
    exact finalize_countCalls_ne a hist (some ob) Hook.create (by decide)

/-- An object without metadata accessors is rejected by the first phase that runs, with
the accessor's error and without any call. -/
theorem sync_noMeta (a : objectLifecycleAdapter) (hist : Trace) (key : String) (ob : Object)
    (hm : ob.objectMeta = none) :
    a.syncContext hist key (Input.object ob) = ((none, some errNotObject), []) := by
  unfold objectLifecycleAdapter.syncContext
  cases hf : a.hasFinalize with
  | true =>
    simp [objectLifecycleAdapter.finalize, hf, Accessor_noMeta ob hm]
  | false =>
    simp [objectLifecycleAdapter.finalize, objectLifecycleAdapter.create, hf,
      Accessor_noMeta ob hm]

/-- C2. One-shot guard: for a record whose annotation map holds the adapter's create key with
value "true", the create phase returns `(nil, continue = true, nil)` and issues no call, and
`sync` never invokes `onCreate`, for every store and every callback set. -/
theorem C2_one_shot_guard (a : objectLifecycleAdapter) (hist : Trace) (key : String)
    (ob : Object) (m : ObjectMeta) (hm : ob.objectMeta = some m)
    (hinit : mapGet m.annotations a.createKey = "true") :
    a.create hist (some ob) = ((none, true, none), []) ∧
      countCalls Hook.create (a.sync hist key (Input.object ob)).2 = 0 := by
  have hi : a.isInitialized m = true := by
    simp [objectLifecycleAdapter.isInitialized, hinit]
  exact ⟨create_initialized a hist ob m hm hi,
    sync_initialized_countCalls_create a hist key ob m hm hi⟩

theorem C2_one_shot_guard_witness :
    demoAdapter.create [] (some initializedRecord) = ((none, true, none), []) ∧
      countCalls Hook.create (demoAdapter.sync [] "r1" (Input.object initializedRecord)).2 = 0 :=
  C2_one_shot_guard demoAdapter [] "r1" initializedRecord initializedMeta rfl (by decide)

/-! ## Counting store calls -/

@[simp] theorem countUpdates_nil (s : Site) : countUpdates s [] = 0 := rfl

@[simp] theorem countUpdates_append (s : Site) (t u : Trace) :
    countUpdates s (t ++ u) = countUpdates s t + countUpdates s u := by
  simp [countUpdates, List.countP_append]

@[simp] theorem countUpdates_cons_call (s : Site) (g : Hook) (ob : Object) (t : Trace) :
    countUpdates s (Event.call g ob :: t) = countUpdates s t := by
  simp [countUpdates, List.countP_cons]

@[simp] theorem countUpdates_cons_update (s s1 : Site) (n : String) (ob : Object) (t : Trace) :
    countUpdates s (Event.update s1 n ob :: t) = (if s1 = s then 1 else 0) + countUpdates s t := by
  by_cases hs : s1 = s <;> simp [countUpdates, List.countP_cons, hs, Nat.add_comm]

@[simp] theorem countUpdates_cons_get (s : Site) (n1 n2 : String) (t : Trace) :
    countUpdates s (Event.get n1 n2 :: t) = countUpdates s t := by
  simp [countUpdates, List.countP_cons]

@[simp] theorem countGets_nil : countGets [] = 0 := rfl

@[simp] theorem countGets_append (t u : Trace) :
    countGets (t ++ u) = countGets t + countGets u := by
  simp [countGets, List.countP_append]

@[simp] theorem countGets_cons_call (g : Hook) (ob : Object) (t : Trace) :
    countGets (Event.call g ob :: t) = countGets t := by
  simp [countGets, List.countP_cons]

@[simp] theorem countGets_cons_update (s1 : Site) (n : String) (ob : Object) (t : Trace) :
    countGets (Event.update s1 n ob :: t) = countGets t := by
  simp [countGets, List.countP_cons]

@[simp] theorem countGets_cons_get (n1 n2 : String) (t : Trace) :
    countGets (Event.get n1 n2 :: t) = 1 + countGets t := by
  simp [countGets, List.countP_cons, Nat.add_comm]

theorem update_countUpdates_ne (a : objectLifecycleAdapter) (hist : Trace) (n : String)
    (orig obj : Option Object) (s : Site) (hs : Site.record ≠ s) :
    countUpdates s (a.update hist n orig obj).2 = 0 := by
  unfold objectLifecycleAdapter.update
  split
  · split
    · dsimp only
      split <;> simp [hs]
    · rfl
  · rfl
  · rfl

theorem record_countUpdates_ne (a : objectLifecycleAdapter) (hist : Trace) (obj : Option Object)
    (f : Hook) (s : Site) (hs : Site.record ≠ s) :
    countUpdates s (a.record hist obj f).2 = 0 := by
  unfold objectLifecycleAdapter.record
  split
  · rfl
  · dsimp only
    split <;> simp [update_countUpdates_ne _ _ _ _ _ s hs]

theorem setInitialized_countUpdates_ne (a : objectLifecycleAdapter) (hist : Trace)
    (obj : Option Object) (s : Site) (hs : Site.setInitialized ≠ s) :
    countUpdates s (a.setInitialized hist obj).2 = 0 := by
  unfold objectLifecycleAdapter.setInitialized
  split
  · rfl
  · simp [hs]

theorem addFinalizer_countUpdates_ne (a : objectLifecycleAdapter) (hist : Trace)
    (obj : Option Object) (s : Site) (hs : Site.addFinalizer ≠ s) :
    countUpdates s (a.addFinalizer hist obj).2 = 0 := by
  unfold objectLifecycleAdapter.addFinalizer
  split
  · rfl
  · split
    · rfl
    · dsimp only
      split
      · rfl
      · simp [hs]

theorem create_countUpdates_remove (a : objectLifecycleAdapter) (hist : Trace)
    (obj : Option Object) : countUpdates Site.removeFinalizer (a.create hist obj).2 = 0 := by
  have haf : ∀ h o, countUpdates Site.removeFinalizer
      (if a.hasFinalize = true then a.addFinalizer h o else ((o, none), [])).2 = 0 := by
    intro h o
    split
    · exact addFinalizer_countUpdates_ne a h o _ (by decide)
    · rfl
  unfold objectLifecycleAdapter.create
  split
  · rfl
  · split
    · rfl
    · dsimp only
      split
      · exact haf _ _
      · split
        · exact haf _ _
        · split
          · simp [haf, record_countUpdates_ne]
          · simp [haf, record_countUpdates_ne, setInitialized_countUpdates_ne]

/-- Over a whole invocation, finalizer-removing updates come from the finalize phase only. -/
theorem sync_countUpdates_remove (a : objectLifecycleAdapter) (hist : Trace) (key : String)
    (ob : Object) :
    countUpdates Site.removeFinalizer (a.syncContext hist key (Input.object ob)).2 =
      countUpdates Site.removeFinalizer (a.finalize hist (some ob)).2 := by
  cases hc : (a.finalize hist (some ob)).1.2.1 with
  | true =>
    rw [sync_object_of_continue a hist key ob hc, (finalize_continue a hist ob hc).1]
    dsimp only
    split
    · simp [create_countUpdates_remove]
    · simp [create_countUpdates_remove, record_countUpdates_ne]
  | false => rw [sync_object_of_stop a hist key ob hc]

/-! ## Finalizer removal happens only after a successful finalize -/

theorem maybeDeepCopy_eq (old newObj : Option Object) : maybeDeepCopy old newObj = newObj := by
  unfold maybeDeepCopy
  split
  · rename_i h
    subst h
    cases old <;> rfl
  · rfl

/-- The finalize phase of a record the adapter is responsible for: `onFinalize` through the
Record-and-Update protocol, then the removal of the finalizer. -/
theorem finalize_of_finalizing (a : objectLifecycleAdapter) (hist : Trace) (ob : Object)
    (hf : finalizing a ob = true) :
    a.finalize hist (some ob) =
      (match (a.record hist (some ob) Hook.finalize).1.2 with
        | some err => ((some ob, false, some err), (a.record hist (some ob) Hook.finalize).2)
        | none =>
          let r := a.record hist (some ob) Hook.finalize
          let q := a.removeFinalizer (hist ++ r.2) a.constructFinalizerKey r.1.1
          ((q.1.1, false, q.1.2), r.2 ++ q.2)) := by
  unfold finalizing at hf
  cases hm : ob.objectMeta with
  | none => simp [hm] at hf
  | some m =>
    simp only [hm, Bool.and_eq_true, Option.isSome_iff_ne_none] at hf
    obtain ⟨h1, h2, h3⟩ := hf
    unfold objectLifecycleAdapter.finalize
    rw [Accessor_some ob m hm]
    simp only [h1, h3, Bool.not_true, Bool.false_eq_true, if_false, if_neg h2, maybeDeepCopy_eq]

/-- A record the adapter is not responsible for finalizing leaves the finalize phase
without any call. -/
theorem finalize_not_finalizing (a : objectLifecycleAdapter) (hist : Trace) (ob : Object)
    (hf : finalizing a ob = false) : (a.finalize hist (some ob)).2 = [] := by
  unfold finalizing at hf
  unfold objectLifecycleAdapter.finalize
  cases h1 : a.hasFinalize with
  | false => simp
  | true =>
    cases hm : ob.objectMeta with
    | none => simp [Accessor_noMeta ob hm]
    | some m =>
      rw [Accessor_some ob m hm]
      simp only [h1, hm, Bool.true_and, Bool.and_eq_false_iff] at hf
      rcases hf with hf | hf
      · have hd : m.deletionTimestamp = none := by
          cases hdt : m.deletionTimestamp with
          | none => rfl
          | some t => simp [hdt] at hf
        simp [hd]
      · simp only [h1, hf, Bool.not_true, Bool.not_false, Bool.false_eq_true, if_true, if_false]
        by_cases hd : m.deletionTimestamp = none
        · rw [if_pos hd]
        · rw [if_neg hd]

/-- The Record-and-Update protocol on a record starts with the callback. -/
theorem record_trace_head (a : objectLifecycleAdapter) (hist : Trace) (ob : Object)
    (m : ObjectMeta) (hm : ob.objectMeta = some m) (f : Hook) :
    ∃ rest, (a.record hist (some ob) f).2 = Event.call f ob :: rest := by
  unfold objectLifecycleAdapter.record
  rw [Accessor_some ob m hm]
  dsimp only
  split
  · exact ⟨_, by simp [Object.DeepCopyObject]; rfl⟩
  · exact ⟨_, by simp [Object.DeepCopyObject]; rfl⟩
  · exact ⟨[], by simp [Object.DeepCopyObject]⟩

theorem finalizing_meta (a : objectLifecycleAdapter) (ob : Object)
    (hf : finalizing a ob = true) : ∃ m, ob.objectMeta = some m := by
  unfold finalizing at hf
  cases hm : ob.objectMeta with
  | none => simp [hm] at hf
  | some m => exact ⟨m, rfl⟩

theorem countUpdates_pos_of_mem (s : Site) (pre post : Trace) (n : String) (w : Object) :
    0 < countUpdates s (pre ++ Event.update s n w :: post) := by
  simp

/-- C1. Within one `sync` invocation a finalizer-removing store update is issued only after
`onFinalize` has been invoked in that invocation and the Record-and-Update step around it
returned no error; and when that step returns an error (the error of `onFinalize`, or of the
write-back of its replacement), `sync` returns that error and no finalizer-removing update
is issued. This holds for every record, callback set and store. -/
theorem C1_remove_only_after_finalize (a : objectLifecycleAdapter) (hist : Trace)
    (key : String) (inp : Input) :
    (∀ (pre post : Trace) (n : String) (w : Object),
        (a.sync hist key inp).2 = pre ++ Event.update Site.removeFinalizer n w :: post →
        ∃ ob, inp = Input.object ob ∧ Event.call Hook.finalize ob ∈ pre ∧
          (a.record hist (some ob) Hook.finalize).1.2 = none) ∧
    (∀ (ob : Object) (e : Err), inp = Input.object ob → finalizing a ob = true →
        (a.record hist (some ob) Hook.finalize).1.2 = some e →
        (a.sync hist key inp).1 = (none, some e) ∧
          countUpdates Site.removeFinalizer (a.sync hist key inp).2 = 0) := by
  unfold objectLifecycleAdapter.sync
  constructor
  · intro pre post n w htr
    have hpos : 0 < countUpdates Site.removeFinalizer (a.syncContext hist key inp).2 := by
      rw [htr]
      exact countUpdates_pos_of_mem _ pre post n w
    cases inp with
    | nil => simp [objectLifecycleAdapter.syncContext] at hpos
    | typedNil => simp [objectLifecycleAdapter.syncContext] at hpos
    | foreign => simp [objectLifecycleAdapter.syncContext] at hpos
    | object ob =>
      rw [sync_countUpdates_remove] at hpos
      cases hf : finalizing a ob with
      | false => simp [finalize_not_finalizing a hist ob hf] at hpos
      | true =>
        have hfin := finalize_of_finalizing a hist ob hf
        obtain ⟨m, hm⟩ := finalizing_meta a ob hf
        obtain ⟨rest, hrest⟩ := record_trace_head a hist ob m hm Hook.finalize
        cases hr : (a.record hist (some ob) Hook.finalize).1.2 with
        | some err =>
          rw [hr] at hfin
          rw [hfin] at hpos
          simp [record_countUpdates_ne] at hpos
        | none =>
          rw [hr] at hfin
          refine ⟨ob, rfl, ?_, hr⟩
          have hstop : (a.finalize hist (some ob)).1.2.1 = false := by rw [hfin]
          rw [sync_object_of_stop a hist key ob hstop, hfin] at htr
          dsimp only at htr
          rw [hrest] at htr
          cases pre with
          | nil => simp at htr
          | cons p ps =>
            simp only [List.cons_append, List.cons.injEq] at htr
            rw [← htr.1]
            exact List.mem_cons_self _ _
  · intro ob e hinp hf hr
    subst hinp
    have hfin := finalize_of_finalizing a hist ob hf
    rw [hr] at hfin
    have hstop : (a.finalize hist (some ob)).1.2.1 = false := by rw [hfin]
    rw [sync_object_of_stop a hist key ob hstop, hfin]
    exact ⟨rfl, record_countUpdates_ne a hist (some ob) Hook.finalize _ (by decide)⟩

theorem C1_remove_only_after_finalize_witness :
    (∃ ob, Input.object tombRecord = Input.object ob ∧
        Event.call Hook.finalize ob ∈ [Event.call Hook.finalize tombRecord] ∧
        (demoAdapter.record [] (some ob) Hook.finalize).1.2 = none) ∧
      ((failingAdapter.sync [] "r1" (Input.object tombRecord)).1 = (none, some "boom") ∧
        countUpdates Site.removeFinalizer
          (failingAdapter.sync [] "r1" (Input.object tombRecord)).2 = 0) :=
  ⟨(C1_remove_only_after_finalize demoAdapter [] "r1" (Input.object tombRecord)).1
      [Event.call Hook.finalize tombRecord] [] "r1" tombReleased (by decide),
    (C1_remove_only_after_finalize failingAdapter [] "r1" (Input.object tombRecord)).2
      tombRecord "boom" rfl (by decide) (by decide)⟩

/-! ## The create phase on a live record -/

/-- A record without a deletion marker passes the finalize phase. -/
theorem finalize_live (a : objectLifecycleAdapter) (hist : Trace) (ob : Object)
    (m : ObjectMeta) (hm : ob.objectMeta = some m) (hdel : m.deletionTimestamp = none) :
    (a.finalize hist (some ob)).1.2.1 = true := by
  unfold objectLifecycleAdapter.finalize
  rw [Accessor_some ob m hm]
  cases a.hasFinalize <;> simp [hdel]

/-- What the create phase does before `onCreate`: `addFinalizer` when the finalize
capability is enabled, nothing otherwise. With a store whose update hands back a record,
the outcome is a record and no error. -/
theorem ensureFinalizer_ok (a : objectLifecycleAdapter) (hist : Trace) (ob : Object)
    (m : ObjectMeta) (hm : ob.objectMeta = some m)
    (hupd : ∀ h s n o m0, o.objectMeta = some m0 →
      ∃ o1 m1, a.objectClient.Update h s n o = (some o1, none) ∧ o1.objectMeta = some m1) :
    ∃ o1 m1, (if a.hasFinalize = true then a.addFinalizer hist (some ob)
        else ((some ob, none), [])).1 = (some o1, none) ∧ o1.objectMeta = some m1 := by
  cases a.hasFinalize with
  | false => exact ⟨ob, m, by simp, hm⟩
  | true =>
    simp only [if_true]
    unfold objectLifecycleAdapter.addFinalizer
    rw [Accessor_some ob m hm]
    dsimp only
    split
    · exact ⟨ob, m, rfl, hm⟩
    · rw [show Accessor (some ob.DeepCopyObject) = Except.ok (ob, m) from Accessor_some ob m hm]
      dsimp only
      obtain ⟨o1, m1, h1, h2⟩ := hupd hist Site.addFinalizer m.name
        (ob.withMeta { m with finalizers := goAppend m.finalizers a.constructFinalizerKey })
        _ rfl
      exact ⟨o1, m1, h1, h2⟩

theorem ensureFinalizer_countCalls (a : objectLifecycleAdapter) (hist : Trace)
    (obj : Option Object) (h : Hook) :
    countCalls h (if a.hasFinalize = true then a.addFinalizer hist obj
      else ((obj, none), [])).2 = 0 := by
  split
  · unfold objectLifecycleAdapter.addFinalizer
    split
    · rfl
    · split
      · rfl
      · dsimp only
        split
        · rfl
        · simp
  · rfl

theorem setInitialized_countCalls (a : objectLifecycleAdapter) (hist : Trace)
    (obj : Option Object) (h : Hook) : countCalls h (a.setInitialized hist obj).2 = 0 := by
  unfold objectLifecycleAdapter.setInitialized
  split
  · rfl
  · simp

/-- The create phase never invokes `onUpdate` or `onFinalize`. -/
theorem create_countCalls_ne (a : objectLifecycleAdapter) (hist : Trace) (obj : Option Object)
    (h : Hook) (hne : Hook.create ≠ h) : countCalls h (a.create hist obj).2 = 0 := by
  unfold objectLifecycleAdapter.create
  split
  · rfl
  · split
    · rfl
    · dsimp only
      split
      · exact ensureFinalizer_countCalls a hist obj h
      · split
        · exact ensureFinalizer_countCalls a hist obj h
        · split
          · simp [ensureFinalizer_countCalls, record_countCalls_ne _ _ _ _ _ hne]
          · simp [ensureFinalizer_countCalls, record_countCalls_ne _ _ _ _ _ hne,
              setInitialized_countCalls]

/-- When the create phase lets the pipeline continue, it has not invoked `onCreate`. -/
theorem create_continue_no_call (a : objectLifecycleAdapter) (hist : Trace)
    (obj : Option Object) :
    (a.create hist obj).1.2.1 = true → countCalls Hook.create (a.create hist obj).2 = 0 := by
  unfold objectLifecycleAdapter.create
  split
  · intro _; rfl
  · split
    · intro _; rfl
    · dsimp only
      split
      · intro h; simp at h
      · split
        · intro _; exact ensureFinalizer_countCalls a hist obj Hook.create
        · split
          · intro h; simp at h
          · intro h; simp at h

/-- Whenever the create phase has invoked `onCreate`, it stops the pipeline. -/
theorem create_stop_of_call (a : objectLifecycleAdapter) (hist : Trace) (obj : Option Object)
    (hcall : 0 < countCalls Hook.create (a.create hist obj).2) :
    (a.create hist obj).1.2.1 = false := by
  cases hc : (a.create hist obj).1.2.1 with
  | false => rfl
  | true =>
    rw [create_continue_no_call a hist obj hc] at hcall
    exact absurd hcall (by decide)

/-- The create phase invokes `onCreate` at most once. -/
theorem create_countCalls_le (a : objectLifecycleAdapter) (hist : Trace) (obj : Option Object) :
    countCalls Hook.create (a.create hist obj).2 ≤ 1 := by
  have hrec : ∀ h o, countCalls Hook.create (a.record h o Hook.create).2 ≤ 1 := by
    intro h o
    unfold objectLifecycleAdapter.record
    split
    · simp
    · dsimp only
      split <;> simp
  unfold objectLifecycleAdapter.create
  split
  · simp
  · split
    · simp
    · dsimp only
      split
      · simp [ensureFinalizer_countCalls]
      · split
        · simp [ensureFinalizer_countCalls]
        · split
          · simpa [ensureFinalizer_countCalls] using hrec _ _
          · simpa [ensureFinalizer_countCalls, setInitialized_countCalls] using hrec _ _

/-- With a store whose update hands back a record, the create phase of a record that is not
yet initialized invokes `onCreate` exactly once when the create capability is enabled. -/
theorem create_countCalls_ready (a : objectLifecycleAdapter) (hist : Trace) (ob : Object)
    (m : ObjectMeta) (hm : ob.objectMeta = some m) (hi : a.isInitialized m = false)
    (hC : a.hasCreate = true)
    (hupd : ∀ h s n o m0, o.objectMeta = some m0 →
      ∃ o1 m1, a.objectClient.Update h s n o = (some o1, none) ∧ o1.objectMeta = some m1) :
    countCalls Hook.create (a.create hist (some ob)).2 = 1 := by
  obtain ⟨o1, m1, h1, hm1⟩ := ensureFinalizer_ok a hist ob m hm hupd
  unfold objectLifecycleAdapter.create
  rw [Accessor_some ob m hm]
  simp only [hi, Bool.false_eq_true, if_false, h1, hC, Bool.not_true]
  split
  · simp [ensureFinalizer_countCalls, record_countCalls_self a _ o1 m1 hm1]
  · simp [ensureFinalizer_countCalls, record_countCalls_self a _ o1 m1 hm1,
      setInitialized_countCalls]

theorem isInitialized_of_no_annotations (a : objectLifecycleAdapter) (m : ObjectMeta)
    (hann : m.annotations.getD [] = []) : a.isInitialized m = false := by
  simp [objectLifecycleAdapter.isInitialized, mapGet, hann]

/-- An invocation in which the create phase invokes `onCreate` ends with the create phase. -/
theorem sync_live_of_create_call (a : objectLifecycleAdapter) (hist : Trace) (key : String)
    (ob : Object) (m : ObjectMeta) (hm : ob.objectMeta = some m)
    (hdel : m.deletionTimestamp = none)
    (hcall : 0 < countCalls Hook.create (a.create hist (some ob)).2) :
    a.syncContext hist key (Input.object ob) =
      ((none, (a.create hist (some ob)).1.2.2), (a.create hist (some ob)).2) := by
  rw [sync_object_of_continue a hist key ob (finalize_live a hist ob m hm hdel)]
  simp [create_stop_of_call a hist (some ob) hcall]

/-- C7, as the code has it. For a record with no deletion marker, no annotations and no
finalizers, with the finalize and create capabilities enabled and every store update
succeeding and handing back a record, a single `sync` invokes `onCreate` exactly once and
does not invoke `onUpdate`: the create phase ends the invocation. -/
theorem C7_fresh_record_create_once_no_update (a : objectLifecycleAdapter) (hist : Trace)
    (key : String) (ob : Object) (m : ObjectMeta) (hm : ob.objectMeta = some m)
    (hdel : m.deletionTimestamp = none) (hann : m.annotations.getD [] = [])
    (_hfin : m.finalizers.getD [] = []) (_hF : a.hasFinalize = true) (hC : a.hasCreate = true)
    (hupd : ∀ h s n o m0, o.objectMeta = some m0 →
      ∃ o1 m1, a.objectClient.Update h s n o = (some o1, none) ∧ o1.objectMeta = some m1) :
    countCalls Hook.create (a.sync hist key (Input.object ob)).2 = 1 ∧
      countCalls Hook.updated (a.sync hist key (Input.object ob)).2 = 0 := by
  have h1 := create_countCalls_ready a hist ob m hm
    (isInitialized_of_no_annotations a m hann) hC hupd
  unfold objectLifecycleAdapter.sync
  rw [sync_live_of_create_call a hist key ob m hm hdel (by rw [h1]; decide)]
  exact ⟨h1, create_countCalls_ne a hist (some ob) Hook.updated (by decide)⟩

theorem C7_fresh_record_create_once_no_update_witness :
    countCalls Hook.create (demoAdapter.sync [] "r1" (Input.object freshRecord)).2 = 1 ∧
      countCalls Hook.updated (demoAdapter.sync [] "r1" (Input.object freshRecord)).2 = 0 :=
  C7_fresh_record_create_once_no_update demoAdapter [] "r1" freshRecord freshMeta rfl rfl rfl rfl
    rfl rfl (fun _ _ _ o m0 h0 => ⟨o, m0, rfl, h0⟩)

/-- C7, as stated, fails on the fresh record `r1` with callbacks that return nothing and a
store that accepts every update: `onCreate` runs once, and `onUpdate` does not run once
afterwards, it does not run at all. -/
theorem C7_fresh_record_counterexample :
    demoAdapter.hasFinalize = true ∧ demoAdapter.hasCreate = true ∧
      freshMeta.deletionTimestamp = none ∧ freshMeta.annotations.getD [] = [] ∧
      freshMeta.finalizers.getD [] = [] ∧
      countCalls Hook.create (demoAdapter.sync [] "r1" (Input.object freshRecord)).2 = 1 ∧
      ¬ countCalls Hook.updated (demoAdapter.sync [] "r1" (Input.object freshRecord)).2 = 1 := by
  decide

/-! ## The fresh-record scenario -/

/-- A callback that returns no replacement and no error leaves the Record-and-Update
protocol with the copy of the object, as the callback has left it, and no write. -/
theorem record_no_replacement (a : objectLifecycleAdapter) (hist : Trace) (ob : Object)
    (m : ObjectMeta) (hm : ob.objectMeta = some m) (f : Hook)
    (herr : (a.lifecycle.run f hist ob).2 = none)
    (hnil : (a.lifecycle.run f hist ob).1 = ObjRef.nil ∨
      (a.lifecycle.run f hist ob).1 = ObjRef.typedNil) :
    a.record hist (some ob) f =
      ((some (ob.apply (a.lifecycle.mutation f hist ob)), none), [Event.call f ob]) := by
  unfold objectLifecycleAdapter.record
  rw [Accessor_some ob m hm]
  have hc : checkNil a.lifecycle hist ob f = ((none, none), [Event.call f ob]) := by
    unfold checkNil
    rcases hnil with h | h <;> simp [h, herr]
  simp [hc, Object.DeepCopyObject]

theorem lastWritten_concat_update (t : Trace) (s : Site) (n : String) (w : Object) :
    lastWritten (t ++ [Event.update s n w]) = some w := by
  simp [lastWritten, List.foldl_append]

theorem mapGet_mapSet (l : List (String × String)) (k v : String) :
    mapGet (some (mapSet l k v)) k = v := by
  simp [mapGet, mapSet, List.lookup]

theorem ContainsString_goAppend (s : Option (List String)) (x : String) :
    ContainsString (goAppend s x) x = true := by
  simp [ContainsString, goAppend]

/-- C8, as stated, fails on the code. The callbacks `strippingLifecycle` meet the scenario:
`onCreate` returns no replacement and no error, both capabilities are enabled, the store
returns what it is given, the record is fresh. `onCreate` clears the finalizer list of the
copy it is handed, `record` returns that copy, and `setInitialized` writes it: the object
last written has the create annotation and no finalizer. -/
theorem C8_fresh_record_persisted_state_counterexample :
    strippingAdapter.hasFinalize = true ∧ strippingAdapter.hasCreate = true ∧
      freshMeta.deletionTimestamp = none ∧ freshMeta.annotations.getD [] = [] ∧
      freshMeta.finalizers.getD [] = [] ∧
      (∀ h o, strippingAdapter.lifecycle.CreateContext h o = (ObjRef.nil, none)) ∧
      (∀ h s n o, strippingAdapter.objectClient.Update h s n o = (some o, none)) ∧
      lastWritten (strippingAdapter.sync [] "r1" (Input.object freshRecord)).2 =
        some strippedRecord ∧
      (∀ mw, strippedRecord.objectMeta = some mw →
        ContainsString mw.finalizers strippingAdapter.constructFinalizerKey = false) :=
  ⟨rfl, rfl, rfl, rfl, rfl, fun _ _ => rfl, fun _ _ _ _ => rfl, by decide,
    fun mw h => by cases h; decide⟩

/-- C8, as the code has it. Fresh-record scenario, persisted state: for a record with no
deletion marker, no annotations and no finalizers, with the finalize and create capabilities enabled,
`onCreate` returning no replacement and no error and leaving the adapter's finalizer key in
the finalizer list of the object it is handed, and every store update succeeding and
returning the object it was given, the object last written by one `sync` has the adapter's
finalizer key in its finalizer list and the adapter's create annotation set to "true", and
`onCreate` was invoked exactly once. -/
theorem C8_fresh_record_persisted_state (a : objectLifecycleAdapter) (hist : Trace)
    (key : String) (ob : Object) (m : ObjectMeta) (hm : ob.objectMeta = some m)
    (hdel : m.deletionTimestamp = none) (hann : m.annotations.getD [] = [])
    (hfin : m.finalizers.getD [] = []) (hF : a.hasFinalize = true) (hC : a.hasCreate = true)
    (hcreate : ∀ h o, (a.lifecycle.CreateContext h o).2 = none ∧
      ((a.lifecycle.CreateContext h o).1 = ObjRef.nil ∨
        (a.lifecycle.CreateContext h o).1 = ObjRef.typedNil))
    (hkeep : ∀ h o m1, ContainsString m1.finalizers a.constructFinalizerKey = true →
      ContainsString ((a.lifecycle.CreateMutation h o).objectMeta m1).finalizers
        a.constructFinalizerKey = true)
    (hupd : ∀ h s n o, a.objectClient.Update h s n o = (some o, none)) :
    (∃ w mw, lastWritten (a.sync hist key (Input.object ob)).2 = some w ∧
        w.objectMeta = some mw ∧
        ContainsString mw.finalizers a.constructFinalizerKey = true ∧
        mapGet mw.annotations a.createKey = "true") ∧
      countCalls Hook.create (a.sync hist key (Input.object ob)).2 = 1 := by
  have hupd1 : ∀ h s n o m0, o.objectMeta = some m0 →
      ∃ o1 m1, a.objectClient.Update h s n o = (some o1, none) ∧ o1.objectMeta = some m1 :=
    fun h s n o m0 h0 => ⟨o, m0, hupd h s n o, h0⟩
  have hi := isInitialized_of_no_annotations a m hann
  have h1 := create_countCalls_ready a hist ob m hm hi hC hupd1
  unfold objectLifecycleAdapter.sync
  rw [sync_live_of_create_call a hist key ob m hm hdel (by rw [h1]; decide)]
  refine ⟨?_, h1⟩
  have hnc : ContainsString m.finalizers a.constructFinalizerKey = false := by
    simp [ContainsString, hfin]
  have haf : a.addFinalizer hist (some ob) =
      ((some (ob.withMeta { m with finalizers := goAppend m.finalizers a.constructFinalizerKey }),
        none),
        [Event.update Site.addFinalizer m.name
          (ob.withMeta { m with finalizers := goAppend m.finalizers a.constructFinalizerKey })]) := by
    unfold objectLifecycleAdapter.addFinalizer
    rw [Accessor_some ob m hm]
    simp [hnc, Object.DeepCopyObject, Accessor_some ob m hm, hupd]
  unfold objectLifecycleAdapter.create
  rw [Accessor_some ob m hm]
  simp only [hi, Bool.false_eq_true, if_false, hF, if_true, haf, hC, Bool.not_true]
  rw [record_no_replacement a _ _ _ rfl Hook.create (hcreate _ _).1 (hcreate _ _).2]
  dsimp only
  unfold objectLifecycleAdapter.setInitialized
  rw [Accessor_some _ _ rfl]
  dsimp only
  rw [lastWritten_concat_update]
  exact ⟨_, _, rfl, rfl, hkeep _ _ _ (ContainsString_goAppend _ _), mapGet_mapSet _ _ _⟩

theorem C8_fresh_record_persisted_state_witness :
    (∃ w mw, lastWritten (demoAdapter.sync [] "r1" (Input.object freshRecord)).2 = some w ∧
        w.objectMeta = some mw ∧
        ContainsString mw.finalizers demoAdapter.constructFinalizerKey = true ∧
        mapGet mw.annotations demoAdapter.createKey = "true") ∧
      countCalls Hook.create (demoAdapter.sync [] "r1" (Input.object freshRecord)).2 = 1 :=
  C8_fresh_record_persisted_state demoAdapter [] "r1" freshRecord freshMeta rfl rfl rfl rfl
    rfl rfl (fun _ _ => ⟨rfl, Or.inl rfl⟩) (fun _ _ _ h => h) (fun _ _ _ _ => rfl)

/-! ## Idempotence of create -/

theorem DeepEqual_meta_noMeta (x y : Object) (m : ObjectMeta) (hx : x.objectMeta = some m)
    (hy : y.objectMeta = none) : DeepEqual x y = false := by
  simp [DeepEqual, hx, hy]

/-- The Record-and-Update protocol against a store that accepts every update and returns
the object it was given, for a callback without error: the result is an object, and an
object without metadata can only be a replacement that was just written. -/
theorem record_echo (a : objectLifecycleAdapter) (hist : Trace) (ob : Object) (m : ObjectMeta)
    (hm : ob.objectMeta = some m) (f : Hook) (herr : (a.lifecycle.run f hist ob).2 = none)
    (hupd : ∀ h s n o, a.objectClient.Update h s n o = (some o, none)) :
    ∃ x, (a.record hist (some ob) f).1 = (some x, none) ∧
      (x.objectMeta = none →
        (a.record hist (some ob) f).2 = [Event.call f ob, Event.update Site.record m.name x]) := by
  unfold objectLifecycleAdapter.record
  rw [Accessor_some ob m hm]
  cases hr : (a.lifecycle.run f hist ob).1 with
  | nil =>
    refine ⟨ob.apply (a.lifecycle.mutation f hist ob), ?_,
      fun h => by simp [Object.apply, hm] at h⟩
    simp [checkNil, Object.DeepCopyObject, hr, herr]
  | typedNil =>
    refine ⟨ob.apply (a.lifecycle.mutation f hist ob), ?_,
      fun h => by simp [Object.apply, hm] at h⟩
    simp [checkNil, Object.DeepCopyObject, hr, herr]
  | ptr r =>
    refine ⟨r, ?_, ?_⟩
    · simp only [checkNil, Object.DeepCopyObject, hr, herr, objectLifecycleAdapter.update, hupd]
      split <;> rfl
    · intro hnone
      simp [checkNil, Object.DeepCopyObject, hr, herr, objectLifecycleAdapter.update, hupd,
        DeepEqual_meta_noMeta ob r m hm hnone]

theorem create_countCalls_initialized (a : objectLifecycleAdapter) (hist : Trace) (ob : Object)
    (m : ObjectMeta) (hm : ob.objectMeta = some m) (hi : a.isInitialized m = true) :
    countCalls Hook.create (a.create hist (some ob)).2 = 0 := by
  rw [create_initialized a hist ob m hm hi]
  rfl

theorem create_countCalls_disabled (a : objectLifecycleAdapter) (hist : Trace)
    (obj : Option Object) (hC : a.hasCreate = false) :
    countCalls Hook.create (a.create hist obj).2 = 0 := by
  unfold objectLifecycleAdapter.create
  split
  · rfl
  · split
    · rfl
    · dsimp only
      split
      · exact ensureFinalizer_countCalls a hist obj Hook.create
      · simp [hC, ensureFinalizer_countCalls]

/-- On a live record the create callback is invoked by the create phase only. -/
theorem sync_live_countCalls_create (a : objectLifecycleAdapter) (hist : Trace) (key : String)
    (ob : Object) (m : ObjectMeta) (hm : ob.objectMeta = some m)
    (hdel : m.deletionTimestamp = none) :
    countCalls Hook.create (a.syncContext hist key (Input.object ob)).2 =
      countCalls Hook.create (a.create hist (some ob)).2 := by
  rw [sync_object_of_continue a hist key ob (finalize_live a hist ob m hm hdel)]
  dsimp only
  split
  · rfl
  · simp [record_countCalls_ne]

theorem isInitialized_setInitialized (a : objectLifecycleAdapter) (mx : ObjectMeta)
    (l : List (String × String)) :
    a.isInitialized { mx with annotations := some (mapSet l a.createKey "true") } = true := by
  simp [objectLifecycleAdapter.isInitialized, mapGet_mapSet]

/-- C3. Idempotence of create: for a record without a deletion marker, when a first `sync`
invokes `onCreate`, `onCreate` returns no error, and every store update succeeds and returns
the object it was given, that `sync` has written to the store, and a second `sync` on the
record as last written does not invoke `onCreate`, whatever has happened in between. -/
theorem C3_create_idempotent (a : objectLifecycleAdapter) (hist : Trace) (key : String)
    (ob : Object) (m : ObjectMeta) (hm : ob.objectMeta = some m)
    (hdel : m.deletionTimestamp = none)
    (hran : 0 < countCalls Hook.create (a.sync hist key (Input.object ob)).2)
    (hcreate : ∀ h o, (a.lifecycle.CreateContext h o).2 = none)
    (hupd : ∀ h s n o, a.objectClient.Update h s n o = (some o, none)) :
    ∃ w, lastWritten (a.sync hist key (Input.object ob)).2 = some w ∧
      ∀ hist2 key2, countCalls Hook.create (a.sync hist2 key2 (Input.object w)).2 = 0 := by
  unfold objectLifecycleAdapter.sync at hran ⊢
  rw [sync_live_countCalls_create a hist key ob m hm hdel] at hran
  rw [sync_live_of_create_call a hist key ob m hm hdel hran]
  have hi : a.isInitialized m = false := by
    cases h : a.isInitialized m with
    | false => rfl
    | true =>
      rw [create_countCalls_initialized a hist ob m hm h] at hran
      exact absurd hran (by decide)
  have hC : a.hasCreate = true := by
    cases h : a.hasCreate with
    | true => rfl
    | false =>
      rw [create_countCalls_disabled a hist (some ob) h] at hran
      exact absurd hran (by decide)
  have hupd1 : ∀ h s n o m0, o.objectMeta = some m0 →
      ∃ o1 m1, a.objectClient.Update h s n o = (some o1, none) ∧ o1.objectMeta = some m1 :=
    fun h s n o m0 h0 => ⟨o, m0, hupd h s n o, h0⟩
  obtain ⟨o1, m1, h1, hm1⟩ := ensureFinalizer_ok a hist ob m hm hupd1
  unfold objectLifecycleAdapter.create
  rw [Accessor_some ob m hm]
  simp only [hi, Bool.false_eq_true, if_false, h1, hC, Bool.not_true]
  obtain ⟨x, hx, hxnone⟩ := record_echo a
    (hist ++ (if a.hasFinalize = true then a.addFinalizer hist (some ob)
      else ((some ob, none), [])).2) o1 m1 hm1 Hook.create (hcreate _ _) hupd
  rw [hx]
  dsimp only
  cases hmx : x.objectMeta with
  | none =>
    refine ⟨x, ?_, fun hist2 key2 => ?_⟩
    · rw [hxnone hmx]
      simp [objectLifecycleAdapter.setInitialized, Accessor_noMeta x hmx, lastWritten,
        List.foldl_append]
    · rw [sync_noMeta a hist2 key2 x hmx]
      rfl
  | some mx =>
    unfold objectLifecycleAdapter.setInitialized
    rw [Accessor_some x mx hmx]
    dsimp only
    rw [lastWritten_concat_update]
    exact ⟨_, rfl, fun hist2 key2 =>
      sync_initialized_countCalls_create a hist2 key2 _ _ rfl
        (isInitialized_setInitialized a mx _)⟩

theorem C3_create_idempotent_witness :
    ∃ w, lastWritten (demoAdapter.sync [] "r1" (Input.object freshRecord)).2 = some w ∧
      ∀ hist2 key2, countCalls Hook.create (demoAdapter.sync hist2 key2 (Input.object w)).2 = 0 :=
  C3_create_idempotent demoAdapter [] "r1" freshRecord freshMeta rfl rfl (by decide)
    (fun _ _ => rfl) (fun _ _ _ _ => rfl)

/-! ## The bound on finalizer-removal attempts -/

/-- With every removal update failing and every re-fetch handing back a record, the loop
of `removeFinalizer` uses up all its `n` iterations: `n` updates, `n` re-fetches, and the
exhausted-retry error. -/
theorem removeFinalizerLoop_exhaust (a : objectLifecycleAdapter) (name : String)
    (hupd : ∀ h n o, (a.objectClient.Update h Site.removeFinalizer n o).2 ≠ none)
    (hget : ∀ h ns n, ∃ o1 m1, a.objectClient.GetNamespaced h ns n = (some o1, none) ∧
      o1.objectMeta = some m1)
    (k : Nat) : ∀ (hist : Trace) (ob : Object) (m : ObjectMeta), ob.objectMeta = some m →
      (a.removeFinalizerLoop name k hist (some ob)).1 =
          (none, some ("failed to remove finalizer on " ++ name)) ∧
        countUpdates Site.removeFinalizer (a.removeFinalizerLoop name k hist (some ob)).2 = k ∧
        countGets (a.removeFinalizerLoop name k hist (some ob)).2 = k := by
  induction k with
  | zero =>
    intro hist ob m _
    simp [objectLifecycleAdapter.removeFinalizerLoop]
  | succ j ih =>
    intro hist ob m hm
    unfold objectLifecycleAdapter.removeFinalizerLoop
    rw [Accessor_some ob m hm]
    dsimp only
    split
    · rename_i hnone
      exact absurd hnone (hupd _ _ _)
    · obtain ⟨o1, m1, hg, hm1⟩ := hget
        (hist ++ [Event.update Site.removeFinalizer m.name
          (ob.withMeta { m with finalizers := filterFinalizers m.finalizers name })]) m.ns m.name
      rw [hg]
      dsimp only
      obtain ⟨ih1, ih2, ih3⟩ := ih
        (hist ++ ([Event.update Site.removeFinalizer m.name
          (ob.withMeta { m with finalizers := filterFinalizers m.finalizers name })] ++
          [Event.get m.ns m.name])) o1 m1 hm1
      refine ⟨ih1, ?_, ?_⟩
      · simp only [countUpdates_append, countUpdates_cons_update, countUpdates_cons_get,
          countUpdates_nil, if_true, ih2]
        omega
      · simp only [countGets_append, countGets_cons_update, countGets_cons_get,
          countGets_nil, ih3]
        omega

/-- C4, as the code has it. Conflict recovery bound: if every store update issued for
finalizer removal fails and every re-fetch succeeds and hands back a record, then
`removeFinalizer` fails with the exhausted-retry error after exactly 3 update attempts, and
so does a `sync` whose finalize step handed a record to `removeFinalizer`. -/
theorem C4_conflict_recovery_bound (a : objectLifecycleAdapter) (hist : Trace) (key : String)
    (ob : Object) (m : ObjectMeta) (hm : ob.objectMeta = some m)
    (hupd : ∀ h n o, (a.objectClient.Update h Site.removeFinalizer n o).2 ≠ none)
    (hget : ∀ h ns n, ∃ o1 m1, a.objectClient.GetNamespaced h ns n = (some o1, none) ∧
      o1.objectMeta = some m1) :
    ((a.removeFinalizer hist a.constructFinalizerKey (some ob)).1 =
          (none, some ("failed to remove finalizer on " ++ a.constructFinalizerKey)) ∧
        countUpdates Site.removeFinalizer
          (a.removeFinalizer hist a.constructFinalizerKey (some ob)).2 = 3) ∧
      (∀ x mx, finalizing a ob = true →
        (a.record hist (some ob) Hook.finalize).1 = (some x, none) → x.objectMeta = some mx →
        (a.sync hist key (Input.object ob)).1 =
            (none, some ("failed to remove finalizer on " ++ a.constructFinalizerKey)) ∧
          countUpdates Site.removeFinalizer (a.sync hist key (Input.object ob)).2 = 3) := by
  constructor
  · obtain ⟨h1, h2, _⟩ := removeFinalizerLoop_exhaust a a.constructFinalizerKey hupd hget 3
      hist ob m hm
    exact ⟨h1, h2⟩
  · intro x mx hf hx hmx
    have hfin := finalize_of_finalizing a hist ob hf
    rw [hx] at hfin
    dsimp only at hfin
    have hstop : (a.finalize hist (some ob)).1.2.1 = false := by rw [hfin]
    unfold objectLifecycleAdapter.sync
    rw [sync_object_of_stop a hist key ob hstop, hfin]
    obtain ⟨h1, h2, _⟩ := removeFinalizerLoop_exhaust a a.constructFinalizerKey hupd hget 3
      (hist ++ (a.record hist (some ob) Hook.finalize).2) x mx hmx
    have hx1 : (a.record hist (some ob) Hook.finalize).1.1 = some x := by rw [hx]
    unfold objectLifecycleAdapter.removeFinalizer
    dsimp only
    rw [hx1, h1]
    refine ⟨rfl, ?_⟩
    rw [countUpdates_append, h2, record_countUpdates_ne a hist (some ob) Hook.finalize _
      (by decide)]

theorem C4_conflict_recovery_bound_witness :
    ((contendedAdapter.removeFinalizer [] contendedAdapter.constructFinalizerKey
            (some tombRecord)).1 =
          (none, some ("failed to remove finalizer on " ++ contendedAdapter.constructFinalizerKey)) ∧
        countUpdates Site.removeFinalizer
          (contendedAdapter.removeFinalizer [] contendedAdapter.constructFinalizerKey
            (some tombRecord)).2 = 3) ∧
      ((contendedAdapter.sync [] "r1" (Input.object tombRecord)).1 =
            (none, some ("failed to remove finalizer on " ++
              contendedAdapter.constructFinalizerKey)) ∧
          countUpdates Site.removeFinalizer
            (contendedAdapter.sync [] "r1" (Input.object tombRecord)).2 = 3) :=
  ⟨(C4_conflict_recovery_bound contendedAdapter [] "r1" tombRecord tombMeta rfl
      (fun _ _ _ => Option.some_ne_none _) (fun _ _ _ => ⟨tombRecord, tombMeta, rfl, rfl⟩)).1,
    (C4_conflict_recovery_bound contendedAdapter [] "r1" tombRecord tombMeta rfl
      (fun _ _ _ => Option.some_ne_none _) (fun _ _ _ => ⟨tombRecord, tombMeta, rfl, rfl⟩)).2
      tombRecord tombMeta (by decide) (by decide) rfl⟩

/-- C4, as stated, fails when the re-fetch fails: every update issued for finalizer removal
is rejected with a conflict, yet `removeFinalizer` and `sync` stop after one update attempt,
with the error of the re-fetch. -/
theorem C4_conflict_recovery_counterexample :
    (∀ h n o, (conflictClient.Update h Site.removeFinalizer n o).2 = some "conflict") ∧
      (conflictAdapter.sync [] "r1" (Input.object tombRecord)).1 = (none, some "not found") ∧
      countUpdates Site.removeFinalizer
        (conflictAdapter.sync [] "r1" (Input.object tombRecord)).2 = 1 ∧
      countUpdates Site.removeFinalizer
        (conflictAdapter.removeFinalizer [] conflictAdapter.constructFinalizerKey
          (some tombRecord)).2 = 1 :=
  ⟨fun _ _ _ => rfl, by decide, by decide, by decide⟩

/-! ## No-op write suppression -/

/-- C5. No-op write suppression: for every object and callback, when `record` invokes the
callback and the callback returns a non-nil replacement that is deeply equal to the object
given to `record`, then `record` issues no store update (its only call is the callback) and
returns that replacement with the callback's error. -/
theorem C5_noop_write_suppression (a : objectLifecycleAdapter) (hist : Trace) (ob : Object)
    (f : Hook) (r : Object) (e : Option Err)
    (hcall : Event.call f ob ∈ (a.record hist (some ob) f).2)
    (hf : a.lifecycle.run f hist ob = (ObjRef.ptr r, e)) (heq : DeepEqual ob r = true) :
    a.record hist (some ob) f = ((some r, e), [Event.call f ob]) := by
  cases hm : ob.objectMeta with
  | none =>
    simp [objectLifecycleAdapter.record, Accessor_noMeta ob hm] at hcall
  | some m =>
    unfold objectLifecycleAdapter.record
    rw [Accessor_some ob m hm]
    cases e with
    | none =>
      simp [checkNil, Object.DeepCopyObject, hf, objectLifecycleAdapter.update, heq]
    | some err =>
      simp [checkNil, Object.DeepCopyObject, hf, objectLifecycleAdapter.update, heq]

theorem C5_noop_write_suppression_witness :
    identityAdapter.record [] (some freshRecord) Hook.updated =
      ((some freshRecord, none), [Event.call Hook.updated freshRecord]) :=
  C5_noop_write_suppression identityAdapter [] freshRecord Hook.updated freshRecord none
    (by decide) rfl (by decide)

/-! ## Records and objects the adapter does not handle -/

/-- C6, as the code has it. Foreign-owner skip: when the finalize capability is enabled, a
record that has a deletion marker and whose finalizer list does not contain the adapter's
finalizer key makes `sync` return `(nil, nil)` without any callback or store call. -/
theorem C6_foreign_owner_skip (a : objectLifecycleAdapter) (hist : Trace) (key : String)
    (ob : Object) (m : ObjectMeta) (hm : ob.objectMeta = some m) (hF : a.hasFinalize = true)
    (hdel : m.deletionTimestamp ≠ none)
    (hnc : ContainsString m.finalizers a.constructFinalizerKey = false) :
    a.sync hist key (Input.object ob) = ((none, none), []) := by
  have hfin : a.finalize hist (some ob) = ((none, false, none), []) := by
    unfold objectLifecycleAdapter.finalize
    rw [Accessor_some ob m hm]
    simp [hF, hdel, hnc]
  unfold objectLifecycleAdapter.sync
  rw [sync_object_of_stop a hist key ob (by rw [hfin]), hfin]

theorem C6_foreign_owner_skip_witness :
    demoAdapter.sync [] "r1" (Input.object foreignTomb) = ((none, none), []) :=
  C6_foreign_owner_skip demoAdapter [] "r1" foreignTomb foreignTombMeta rfl rfl (by decide)
    (by decide)

/-- C6, as stated, fails for an adapter whose finalize capability is disabled: the record
has a deletion marker and not the adapter's finalizer key, yet `sync` invokes `onCreate`
and writes to the store. -/
theorem C6_foreign_owner_counterexample :
    foreignTombMeta.deletionTimestamp ≠ none ∧
      ContainsString foreignTombMeta.finalizers noFinalizeAdapter.constructFinalizerKey = false ∧
      countCalls Hook.create (noFinalizeAdapter.sync [] "r1" (Input.object foreignTomb)).2 = 1 ∧
      countUpdates Site.setInitialized
        (noFinalizeAdapter.sync [] "r1" (Input.object foreignTomb)).2 = 1 := by
  decide

/-- On a value of a kind without a nil (a string, a number, a struct value) `sync` does not
return: the reflective nil test panics before the type assertion. On every other value it is
`sync` on `Input`. -/
theorem syncValue_kinds (a : objectLifecycleAdapter) (hist : Trace) (key : String) :
    a.syncValue hist key Value.other = none ∧
      ∀ inp, a.syncValue hist key (Value.nillable inp) = some (a.sync hist key inp) :=
  ⟨rfl, fun _ => rfl⟩

/-- C10, as the code has it. A non-nil input of a kind that can be nil (a pointer, map,
slice, channel or function) that is not a `runtime.Object` is skipped: `sync` returns
`(nil, nil)` without any call. A non-nil `runtime.Object` from which no metadata accessors
can be obtained is not skipped silently: `sync` returns the accessor's error, still without
any callback or store call. -/
theorem C10_malformed_input (a : objectLifecycleAdapter) (hist : Trace) (key : String) :
    a.sync hist key Input.foreign = ((none, none), []) ∧
      ∀ ob, ob.objectMeta = none →
        a.sync hist key (Input.object ob) = ((none, some errNotObject), []) :=
  ⟨rfl, fun ob hm => sync_noMeta a hist key ob hm⟩

theorem C10_malformed_input_witness :
    demoAdapter.sync [] "r1" Input.foreign = ((none, none), []) ∧
      demoAdapter.sync [] "r1" (Input.object bareObject) = ((none, some errNotObject), []) :=
  ⟨(C10_malformed_input demoAdapter [] "r1").1,
    (C10_malformed_input demoAdapter [] "r1").2 bareObject rfl⟩

/-- C10, as stated, fails on a non-nil object without metadata accessors: `sync` surfaces
an error instead of returning `(nil, nil)`. -/
theorem C10_malformed_input_counterexample :
    bareObject.objectMeta = none ∧
      (demoAdapter.sync [] "r1" (Input.object bareObject)).1 ≠ (none, none) ∧
      (demoAdapter.sync [] "r1" (Input.object bareObject)).1.2 =
        some "object does not implement the Object interfaces" := by
  decide

/-! ## The tombstone scenario -/

theorem filterFinalizers_fold_only (name : String) (l : List String)
    (acc : Option (List String)) (h : ∀ x ∈ l, x = name) :
    l.foldl (fun acc finalizer => if finalizer = name then acc else goAppend acc finalizer) acc
      = acc := by
  induction l generalizing acc with
  | nil => rfl
  | cons x t ih =>
    rw [List.foldl_cons, if_pos (h x (List.mem_cons_self x t))]
    exact ih acc (fun y hy => h y (List.mem_cons_of_mem x hy))

/-- Filtering `name` out of a finalizer list that holds nothing else leaves the nil slice. -/
theorem filterFinalizers_only (name : String) (fs : Option (List String))
    (h : ∀ x ∈ fs.getD [], x = name) : filterFinalizers fs name = none :=
  filterFinalizers_fold_only name (fs.getD []) none h

/-- C9, as stated, fails on the code. The callbacks `holdingLifecycle` meet the scenario:
`onFinalize` returns `(nil, nil)`, the finalize capability is enabled, the store update
succeeds, the record has a deletion marker and exactly the adapter's finalizer. `onFinalize`
appends a finalizer to the copy it is handed, `record` returns that copy, and
`removeFinalizer` writes it without the adapter's key: the written list is not empty. -/
theorem C9_tombstone_counterexample :
    holdingAdapter.hasFinalize = true ∧ tombMeta.deletionTimestamp ≠ none ∧
      tombMeta.finalizers = some [holdingAdapter.constructFinalizerKey] ∧
      (∀ h o, holdingAdapter.lifecycle.FinalizeContext h o = (ObjRef.nil, none)) ∧
      (∀ h s n o, (holdingAdapter.objectClient.Update h s n o).2 = none) ∧
      (holdingAdapter.sync [] "r1" (Input.object tombRecord)).2 =
        [Event.call Hook.finalize tombRecord,
          Event.update Site.removeFinalizer "r1" tombHeld] ∧
      (∀ mw, tombHeld.objectMeta = some mw → mw.finalizers.getD [] = ["example.io/hold"]) :=
  ⟨rfl, by decide, rfl, fun _ _ => rfl, fun _ _ _ _ => rfl, by decide,
    fun mw h => by cases h; rfl⟩

/-- C9, as the code has it. Tombstone scenario: for a record with a deletion marker whose
finalizer list is exactly the adapter's finalizer key, with the finalize capability enabled,
`onFinalize` returning `(nil, nil)` and leaving no finalizer other than the adapter's key on
the object it is handed, and the store update succeeding, `sync` returns `(nil, nil)`, and
its calls are `onFinalize` followed by one store update of the record with an empty
finalizer list. -/
theorem C9_tombstone (a : objectLifecycleAdapter) (hist : Trace) (key : String) (ob : Object)
    (m : ObjectMeta) (hm : ob.objectMeta = some m) (hdel : m.deletionTimestamp ≠ none)
    (hfin : m.finalizers = some [a.constructFinalizerKey]) (hF : a.hasFinalize = true)
    (hcb : a.lifecycle.FinalizeContext hist ob = (ObjRef.nil, none))
    (hkeep : ∀ x ∈ (((a.lifecycle.FinalizeMutation hist ob).objectMeta m).finalizers).getD [],
      x = a.constructFinalizerKey)
    (hupd : ∀ h s n o, (a.objectClient.Update h s n o).2 = none) :
    (a.sync hist key (Input.object ob)).1 = (none, none) ∧
      ∃ w mw, (a.sync hist key (Input.object ob)).2 =
          [Event.call Hook.finalize ob, Event.update Site.removeFinalizer mw.name w] ∧
        w.objectMeta = some mw ∧ mw.finalizers.getD [] = [] ∧
        ContainsString mw.finalizers a.constructFinalizerKey = false := by
  have hf : finalizing a ob = true := by
    simp [finalizing, hF, hm, hfin, ContainsString, Option.isSome_iff_ne_none, hdel]
  have hrec : a.record hist (some ob) Hook.finalize =
      ((some (ob.apply (a.lifecycle.FinalizeMutation hist ob)), none),
        [Event.call Hook.finalize ob]) :=
    record_no_replacement a hist ob m hm Hook.finalize
      (by simp [ObjectLifecycleContext.run, hcb]) (Or.inl (by simp [ObjectLifecycleContext.run, hcb]))
  have hfinal := finalize_of_finalizing a hist ob hf
  rw [hrec] at hfinal
  dsimp only at hfinal
  have hma : (ob.apply (a.lifecycle.FinalizeMutation hist ob)).objectMeta =
      some ((a.lifecycle.FinalizeMutation hist ob).objectMeta m) := by
    simp [Object.apply, hm]
  unfold objectLifecycleAdapter.removeFinalizer at hfinal
  rw [objectLifecycleAdapter.removeFinalizerLoop, Accessor_some _ _ hma] at hfinal
  simp only [hupd, filterFinalizers_only _ _ hkeep] at hfinal
  unfold objectLifecycleAdapter.sync
  rw [sync_object_of_stop a hist key ob (by rw [hfinal]), hfinal]
  exact ⟨rfl, _,
    { (a.lifecycle.FinalizeMutation hist ob).objectMeta m with finalizers := none },
    rfl, rfl, rfl, rfl⟩

theorem C9_tombstone_witness :
    (demoAdapter.sync [] "r1" (Input.object tombRecord)).1 = (none, none) ∧
      ∃ w mw, (demoAdapter.sync [] "r1" (Input.object tombRecord)).2 =
          [Event.call Hook.finalize tombRecord,
            Event.update Site.removeFinalizer mw.name w] ∧
        w.objectMeta = some mw ∧ mw.finalizers.getD [] = [] ∧
        ContainsString mw.finalizers demoAdapter.constructFinalizerKey = false :=
  C9_tombstone demoAdapter [] "r1" tombRecord tombMeta rfl (by decide) rfl rfl rfl
    (fun x hx => List.eq_of_mem_singleton (show x ∈ [demoAdapter.constructFinalizerKey] from hx))
    (fun _ _ _ _ => rfl)

/-! ## The capability query behind the public constructor -/

/-- An adapter built by `NewObjectLifecycleAdapter` has both capabilities enabled, whatever
capability query the callback set implements. -/
theorem newAdapter_capabilities (name : String) (clusterScoped : Bool)
    (lifecycle : ObjectLifecycle) (objectClient : ObjectClient) :
    (newAdapter name clusterScoped lifecycle objectClient).hasFinalize = true ∧
      (newAdapter name clusterScoped lifecycle objectClient).hasCreate = true :=
  ⟨rfl, rfl⟩

/-- C11 fails on the code. A callback set whose capability query answers `HasFinalize() =
false` and `HasCreate() = false`, given to `NewObjectLifecycleAdapter`: on the fresh record
`sync` adds the adapter's finalizer and invokes `onCreate`, and on the record under deletion
it invokes `onFinalize`. The same callbacks given to `NewObjectLifecycleAdapterContext` do
neither. -/
theorem C11_capability_query_dropped :
    disabledLifecycle.condition = some { HasCreate := false, HasFinalize := false } ∧
      countUpdates Site.addFinalizer
        (NewObjectLifecycleAdapter "a" false disabledLifecycle echoClient [] "r1"
          (Input.object freshRecord)).2 = 1 ∧
      countCalls Hook.create
        (NewObjectLifecycleAdapter "a" false disabledLifecycle echoClient [] "r1"
          (Input.object freshRecord)).2 = 1 ∧
      countCalls Hook.finalize
        (NewObjectLifecycleAdapter "a" false disabledLifecycle echoClient [] "r1"
          (Input.object tombRecord)).2 = 1 ∧
      (NewObjectLifecycleAdapterContext "a" false disabledLifecycleContext echoClient [] "r1"
          (Input.object freshRecord)).2 = [Event.call Hook.updated freshRecord] ∧
      countCalls Hook.finalize
        (NewObjectLifecycleAdapterContext "a" false disabledLifecycleContext echoClient [] "r1"
          (Input.object tombRecord)).2 = 0 :=
  ⟨rfl, by decide⟩

/-! ## Callback errors -/

/-- C12. Callback errors are always propagated: when `record` invokes the callback and the
callback returns error `e`, `record` returns exactly `e`, whatever the store does; when the
callback also returned a non-nil replacement that is not deeply equal to the original, the
calls of `record` are the callback followed by exactly one store update of that
replacement. -/
theorem C12_callback_error_propagated (a : objectLifecycleAdapter) (hist : Trace)
    (ob : Object) (f : Hook) (e : Err)
    (hcall : Event.call f ob ∈ (a.record hist (some ob) f).2)
    (herr : (a.lifecycle.run f hist ob).2 = some e) :
    (a.record hist (some ob) f).1.2 = some e ∧
      ∀ r, (a.lifecycle.run f hist ob).1 = ObjRef.ptr r → DeepEqual ob r = false →
        ∃ n, (a.record hist (some ob) f).2 = [Event.call f ob, Event.update Site.record n r] := by
  cases hm : ob.objectMeta with
  | none =>
    simp [objectLifecycleAdapter.record, Accessor_noMeta ob hm] at hcall
  | some m =>
    unfold objectLifecycleAdapter.record
    rw [Accessor_some ob m hm]
    constructor
    · cases hr : (a.lifecycle.run f hist ob).1 <;>
        simp [checkNil, Object.DeepCopyObject, hr, herr]
    · intro r hr hne
      refine ⟨m.name, ?_⟩
      simp only [checkNil, Object.DeepCopyObject, hr, herr, objectLifecycleAdapter.update, hne]
      cases (a.objectClient.Update (hist ++ [Event.call f ob]) Site.record m.name r).1 <;> rfl

theorem C12_callback_error_propagated_witness :
    (failingUpdatedAdapter.record [] (some freshRecord) Hook.updated).1.2 = some "boom" ∧
      ∀ r, (failingUpdatedAdapter.lifecycle.run Hook.updated [] freshRecord).1 = ObjRef.ptr r →
        DeepEqual freshRecord r = false →
        ∃ n, (failingUpdatedAdapter.record [] (some freshRecord) Hook.updated).2 =
          [Event.call Hook.updated freshRecord, Event.update Site.record n r] :=
  C12_callback_error_propagated failingUpdatedAdapter [] freshRecord Hook.updated "boom"
    (by decide) rfl

/-! ## Records under deletion -/

/-- With the finalize capability enabled, a record with a deletion marker stops the
pipeline in the finalize phase. -/
theorem finalize_deleting_stop (a : objectLifecycleAdapter) (hist : Trace) (ob : Object)
    (m : ObjectMeta) (hm : ob.objectMeta = some m) (hF : a.hasFinalize = true)
    (hdel : m.deletionTimestamp ≠ none) : (a.finalize hist (some ob)).1.2.1 = false := by
  cases hc : (a.finalize hist (some ob)).1.2.1 with
  | false => rfl
  | true =>
    exfalso
    unfold objectLifecycleAdapter.finalize at hc
    rw [Accessor_some ob m hm] at hc
    simp only [hF, Bool.not_true, Bool.false_eq_true, if_false, if_neg hdel] at hc
    split at hc
    · simp at hc
    · split at hc <;> simp at hc

theorem removeFinalizerLoop_countUpdates_ne (a : objectLifecycleAdapter) (name : String)
    (s : Site) (hs : Site.removeFinalizer ≠ s) (n : Nat) :
    ∀ (hist : Trace) (obj : Option Object),
      countUpdates s (a.removeFinalizerLoop name n hist obj).2 = 0 := by
  induction n with
  | zero => intro hist obj; rfl
  | succ k ih =>
    intro hist obj
    unfold objectLifecycleAdapter.removeFinalizerLoop
    split
    · rfl
    · dsimp only
      split
      · simp [hs]
      · split
        · simp [hs]
        · simp [hs, ih]

theorem finalize_countUpdates_addFinalizer (a : objectLifecycleAdapter) (hist : Trace)
    (obj : Option Object) : countUpdates Site.addFinalizer (a.finalize hist obj).2 = 0 := by
  unfold objectLifecycleAdapter.finalize
  split
  · rfl
  · split
    · rfl
    · dsimp only
      split
      · rfl
      · split
        · rfl
        · split
          · exact record_countUpdates_ne a hist obj Hook.finalize _ (by decide)
          · simp [record_countUpdates_ne, objectLifecycleAdapter.removeFinalizer,
              removeFinalizerLoop_countUpdates_ne]

/-- C18. Create and update phases never run for a record under deletion: with the finalize
capability enabled, for every record carrying a deletion marker, with or without the
adapter's finalizer, `sync` invokes neither `onCreate` nor `onUpdate` and never issues the
finalizer-adding update, whatever the store and the callbacks do. -/
theorem C18_deleting_record_skips_create_and_update (a : objectLifecycleAdapter) (hist : Trace)
    (key : String) (ob : Object) (m : ObjectMeta) (hm : ob.objectMeta = some m)
    (hF : a.hasFinalize = true) (hdel : m.deletionTimestamp ≠ none) :
    countCalls Hook.create (a.sync hist key (Input.object ob)).2 = 0 ∧
      countCalls Hook.updated (a.sync hist key (Input.object ob)).2 = 0 ∧
      countUpdates Site.addFinalizer (a.sync hist key (Input.object ob)).2 = 0 := by
  unfold objectLifecycleAdapter.sync
  rw [sync_object_of_stop a hist key ob (finalize_deleting_stop a hist ob m hm hF hdel)]
  exact ⟨finalize_countCalls_ne a hist (some ob) Hook.create (by decide),
    finalize_countCalls_ne a hist (some ob) Hook.updated (by decide),
    finalize_countUpdates_addFinalizer a hist (some ob)⟩

theorem C18_deleting_record_skips_create_and_update_witness :
    countCalls Hook.create (demoAdapter.sync [] "r1" (Input.object tombRecord)).2 = 0 ∧
      countCalls Hook.updated (demoAdapter.sync [] "r1" (Input.object tombRecord)).2 = 0 ∧
      countUpdates Site.addFinalizer (demoAdapter.sync [] "r1" (Input.object tombRecord)).2 = 0 :=
  C18_deleting_record_skips_create_and_update demoAdapter [] "r1" tombRecord tombMeta rfl rfl
    (by decide)

/-- C14, as the code has it. With the finalize capability enabled, for every record with a
deletion marker and the adapter's finalizer key in its finalizer list, each `sync`
invocation invokes `onFinalize`, exactly once; so the callback and the removal of the
finalizer are never both skipped. -/
theorem C14_finalize_invoked (a : objectLifecycleAdapter) (hist : Trace) (key : String)
    (ob : Object) (m : ObjectMeta) (hm : ob.objectMeta = some m) (hF : a.hasFinalize = true)
    (hdel : m.deletionTimestamp ≠ none)
    (hkey : ContainsString m.finalizers a.constructFinalizerKey = true) :
    countCalls Hook.finalize (a.sync hist key (Input.object ob)).2 = 1 ∧
      (0 < countCalls Hook.finalize (a.sync hist key (Input.object ob)).2 ∨
        0 < countUpdates Site.removeFinalizer (a.sync hist key (Input.object ob)).2) := by
  have hf : finalizing a ob = true := by
    simp [finalizing, hF, hm, hkey, Option.isSome_iff_ne_none, hdel]
  have hone : countCalls Hook.finalize (a.sync hist key (Input.object ob)).2 = 1 := by
    unfold objectLifecycleAdapter.sync
    rw [sync_object_of_stop a hist key ob (finalize_deleting_stop a hist ob m hm hF hdel),
      finalize_of_finalizing a hist ob hf]
    split
    · exact record_countCalls_self a hist ob m hm Hook.finalize
    · simp [record_countCalls_self a hist ob m hm Hook.finalize,
        objectLifecycleAdapter.removeFinalizer]
  exact ⟨hone, Or.inl (by rw [hone]; decide)⟩

theorem C14_finalize_invoked_witness :
    countCalls Hook.finalize (demoAdapter.sync [] "r1" (Input.object tombRecord)).2 = 1 ∧
      (0 < countCalls Hook.finalize (demoAdapter.sync [] "r1" (Input.object tombRecord)).2 ∨
        0 < countUpdates Site.removeFinalizer
          (demoAdapter.sync [] "r1" (Input.object tombRecord)).2) :=
  C14_finalize_invoked demoAdapter [] "r1" tombRecord tombMeta rfl rfl (by decide) (by decide)

/-- C14, as stated, fails for an adapter whose finalize capability is disabled: the record
has a deletion marker and the adapter's finalizer key, yet `sync` neither invokes
`onFinalize` nor removes the finalizer. -/
theorem C14_finalize_counterexample :
    tombMeta.deletionTimestamp ≠ none ∧
      ContainsString tombMeta.finalizers noFinalizeAdapter.constructFinalizerKey = true ∧
      countCalls Hook.finalize (noFinalizeAdapter.sync [] "r1" (Input.object tombRecord)).2 = 0 ∧
      countUpdates Site.removeFinalizer
        (noFinalizeAdapter.sync [] "r1" (Input.object tombRecord)).2 = 0 := by
  decide

/-! ## Disabled create and the end of the create phase -/

/-- The create phase with the create capability disabled, on a record that is not
initialized: the finalizer step, then continue unless that step failed. -/
theorem create_disabled (a : objectLifecycleAdapter) (hist : Trace) (ob : Object)
    (m : ObjectMeta) (hm : ob.objectMeta = some m) (hi : a.isInitialized m = false)
    (hC : a.hasCreate = false) :
    a.create hist (some ob) =
      (match (if a.hasFinalize = true then a.addFinalizer hist (some ob)
          else ((some ob, none), [])).1.2 with
        | some err =>
          (((if a.hasFinalize = true then a.addFinalizer hist (some ob)
              else ((some ob, none), [])).1.1, false, some err),
            (if a.hasFinalize = true then a.addFinalizer hist (some ob)
              else ((some ob, none), [])).2)
        | none =>
          (((if a.hasFinalize = true then a.addFinalizer hist (some ob)
              else ((some ob, none), [])).1.1, true, none),
            (if a.hasFinalize = true then a.addFinalizer hist (some ob)
              else ((some ob, none), [])).2)) := by
  unfold objectLifecycleAdapter.create
  rw [Accessor_some ob m hm]
  simp only [hi, Bool.false_eq_true, if_false, hC, Bool.not_false, if_true]

theorem ensureFinalizer_countUpdates_ne (a : objectLifecycleAdapter) (hist : Trace)
    (obj : Option Object) (s : Site) (hs : Site.addFinalizer ≠ s) :
    countUpdates s (if a.hasFinalize = true then a.addFinalizer hist obj
      else ((obj, none), [])).2 = 0 := by
  split
  · exact addFinalizer_countUpdates_ne a hist obj s hs
  · rfl

/-- C13, as the code has it. Disabled create is distinct from completed create: for a record
without the initialized annotation, with the create capability disabled, the create phase
never invokes `onCreate` and never writes the initialized annotation. When the finalizer
step does not fail, the phase returns the (possibly finalizer-updated) object with
`continue = true`, and on a record without a deletion marker, with a store that hands back
a record, `sync` goes on to invoke `onUpdate`. When the finalizer step fails, the phase
returns its error with `continue = false`. -/
theorem C13_disabled_create (a : objectLifecycleAdapter) (hist : Trace) (key : String)
    (ob : Object) (m : ObjectMeta) (hm : ob.objectMeta = some m)
    (hi : a.isInitialized m = false) (hC : a.hasCreate = false) :
    countCalls Hook.create (a.create hist (some ob)).2 = 0 ∧
      countUpdates Site.setInitialized (a.create hist (some ob)).2 = 0 ∧
      ((if a.hasFinalize = true then a.addFinalizer hist (some ob)
          else ((some ob, none), [])).1.2 = none →
        (a.create hist (some ob)).1 =
          ((if a.hasFinalize = true then a.addFinalizer hist (some ob)
            else ((some ob, none), [])).1.1, true, none)) ∧
      (∀ e, (if a.hasFinalize = true then a.addFinalizer hist (some ob)
          else ((some ob, none), [])).1.2 = some e →
        (a.create hist (some ob)).1.2 = (false, some e)) ∧
      (m.deletionTimestamp = none →
        (∀ h s n o m0, o.objectMeta = some m0 →
          ∃ o1 m1, a.objectClient.Update h s n o = (some o1, none) ∧ o1.objectMeta = some m1) →
        countCalls Hook.updated (a.sync hist key (Input.object ob)).2 = 1 ∧
          countCalls Hook.create (a.sync hist key (Input.object ob)).2 = 0 ∧
          countUpdates Site.setInitialized (a.sync hist key (Input.object ob)).2 = 0) := by
  have hcreate := create_disabled a hist ob m hm hi hC
  refine ⟨create_countCalls_disabled a hist (some ob) hC, ?_, ?_, ?_, ?_⟩
  · rw [hcreate]
    split <;> exact ensureFinalizer_countUpdates_ne a hist (some ob) _ (by decide)
  · intro hnone
    rw [hcreate, hnone]
  · intro e he
    rw [hcreate, he]
  · intro hdel hupd
    obtain ⟨o1, m1, h1, hm1⟩ := ensureFinalizer_ok a hist ob m hm hupd
    have h12 : (if a.hasFinalize = true then a.addFinalizer hist (some ob)
        else ((some ob, none), [])).1.2 = none := by rw [h1]
    have h11 : (if a.hasFinalize = true then a.addFinalizer hist (some ob)
        else ((some ob, none), [])).1.1 = some o1 := by rw [h1]
    rw [h12, h11] at hcreate
    dsimp only at hcreate
    unfold objectLifecycleAdapter.sync
    rw [sync_object_of_continue a hist key ob (finalize_live a hist ob m hm hdel), hcreate]
    simp [ensureFinalizer_countCalls, record_countCalls_self a _ o1 m1 hm1,
      record_countCalls_ne, ensureFinalizer_countUpdates_ne, record_countUpdates_ne]

theorem C13_disabled_create_witness :
    countCalls Hook.create (noCreateAdapter.create [] (some freshRecord)).2 = 0 ∧
      countUpdates Site.setInitialized (noCreateAdapter.create [] (some freshRecord)).2 = 0 ∧
      (noCreateAdapter.create [] (some freshRecord)).1.2 = (true, none) ∧
      (noCreateConflictAdapter.create [] (some freshRecord)).1.2 = (false, some "conflict") ∧
      countCalls Hook.updated (noCreateAdapter.sync [] "r1" (Input.object freshRecord)).2 = 1 :=
  ⟨(C13_disabled_create noCreateAdapter [] "r1" freshRecord freshMeta rfl rfl rfl).1,
    (C13_disabled_create noCreateAdapter [] "r1" freshRecord freshMeta rfl rfl rfl).2.1,
    congrArg Prod.snd
      ((C13_disabled_create noCreateAdapter [] "r1" freshRecord freshMeta rfl rfl rfl).2.2.1
        (by decide)),
    (C13_disabled_create noCreateConflictAdapter [] "r1" freshRecord freshMeta rfl rfl
      rfl).2.2.2.1 "conflict" (by decide),
    ((C13_disabled_create noCreateAdapter [] "r1" freshRecord freshMeta rfl rfl rfl).2.2.2.2
      rfl (fun _ _ _ o m0 h0 => ⟨o, m0, rfl, h0⟩)).1⟩

/-- C13, as stated, fails when the finalizer-adding update fails: with create disabled, on
a record without the initialized annotation, the create phase returns `continue = false`
with the store's error, and `sync` does not go on to `onUpdate`. -/
theorem C13_disabled_create_counterexample :
    noCreateConflictAdapter.hasCreate = false ∧
      noCreateConflictAdapter.isInitialized freshMeta = false ∧
      (noCreateConflictAdapter.create [] (some freshRecord)).1.2 = (false, some "conflict") ∧
      countCalls Hook.updated
        (noCreateConflictAdapter.sync [] "r1" (Input.object freshRecord)).2 = 0 := by
  decide

/-- In one invocation `onCreate` is invoked by the create phase only, and an invocation
that reaches it stops there. -/
theorem sync_create_call_stops (a : objectLifecycleAdapter) (hist : Trace) (key : String)
    (ob : Object) (hcall : 0 < countCalls Hook.create (a.syncContext hist key (Input.object ob)).2) :
    0 < countCalls Hook.create (a.create hist (some ob)).2 ∧
      a.syncContext hist key (Input.object ob) =
        ((none, (a.create hist (some ob)).1.2.2), (a.create hist (some ob)).2) := by
  cases hc : (a.finalize hist (some ob)).1.2.1 with
  | false =>
    rw [sync_object_of_stop a hist key ob hc,
      finalize_countCalls_ne a hist (some ob) Hook.create (by decide)] at hcall
    exact absurd hcall (by decide)
  | true =>
    rw [sync_object_of_continue a hist key ob hc] at hcall ⊢
    have hpos : 0 < countCalls Hook.create (a.create hist (some ob)).2 := by
      dsimp only at hcall
      split at hcall
      · exact hcall
      · simpa [record_countCalls_ne] using hcall
    exact ⟨hpos, by simp [create_stop_of_call a hist (some ob) hpos]⟩

/-- The create phase in terms of its three steps. -/
theorem create_steps (a : objectLifecycleAdapter) (hist : Trace) (ob : Object) (m : ObjectMeta)
    (hm : ob.objectMeta = some m) (hi : a.isInitialized m = false) :
    a.create hist (some ob) =
      (match (a.createFinalizerStep hist (some ob)).1.2 with
        | some err =>
          (((a.createFinalizerStep hist (some ob)).1.1, false, some err),
            (a.createFinalizerStep hist (some ob)).2)
        | none =>
          if a.hasCreate = false then
            (((a.createFinalizerStep hist (some ob)).1.1, true, none),
              (a.createFinalizerStep hist (some ob)).2)
          else
            match (a.createRecordStep hist (some ob)).1.2 with
            | some err =>
              (((a.createRecordStep hist (some ob)).1.1, false, some err),
                (a.createFinalizerStep hist (some ob)).2 ++ (a.createRecordStep hist (some ob)).2)
            | none =>
              (((a.createAnnotationStep hist (some ob)).1.1, false,
                  (a.createAnnotationStep hist (some ob)).1.2),
                (a.createFinalizerStep hist (some ob)).2 ++
                  (a.createRecordStep hist (some ob)).2 ++
                  (a.createAnnotationStep hist (some ob)).2)) := by
  unfold objectLifecycleAdapter.create objectLifecycleAdapter.createAnnotationStep
    objectLifecycleAdapter.createRecordStep objectLifecycleAdapter.createFinalizerStep
  rw [Accessor_some ob m hm]
  simp only [hi, Bool.false_eq_true, if_false, Bool.not_eq_true']

/-- When the create phase has invoked `onCreate`, it went through the Record-and-Update
step, and ends with that step's error or with the annotation step. -/
theorem create_of_call (a : objectLifecycleAdapter) (hist : Trace) (ob : Object)
    (hcall : 0 < countCalls Hook.create (a.create hist (some ob)).2) :
    a.create hist (some ob) =
      (match (a.createRecordStep hist (some ob)).1.2 with
        | some err =>
          (((a.createRecordStep hist (some ob)).1.1, false, some err),
            (a.createFinalizerStep hist (some ob)).2 ++ (a.createRecordStep hist (some ob)).2)
        | none =>
          (((a.createAnnotationStep hist (some ob)).1.1, false,
              (a.createAnnotationStep hist (some ob)).1.2),
            (a.createFinalizerStep hist (some ob)).2 ++
              (a.createRecordStep hist (some ob)).2 ++
              (a.createAnnotationStep hist (some ob)).2)) := by
  cases hm : ob.objectMeta with
  | none =>
    simp [objectLifecycleAdapter.create, Accessor_noMeta ob hm] at hcall
  | some m =>
    cases hi : a.isInitialized m with
    | true =>
      rw [create_countCalls_initialized a hist ob m hm hi] at hcall
      exact absurd hcall (by decide)
    | false =>
      cases hC : a.hasCreate with
      | false =>
        rw [create_countCalls_disabled a hist (some ob) hC] at hcall
        exact absurd hcall (by decide)
      | true =>
        have hsteps := create_steps a hist ob m hm hi
        cases haf : (a.createFinalizerStep hist (some ob)).1.2 with
        | some err =>
          rw [haf] at hsteps
          rw [hsteps] at hcall
          have h0 := ensureFinalizer_countCalls a hist (some ob) Hook.create
          unfold objectLifecycleAdapter.createFinalizerStep at hcall
          rw [h0] at hcall
          exact absurd hcall (by decide)
        | none =>
          rw [haf] at hsteps
          simpa [hC] using hsteps

/-- C16. Whenever the create phase invokes `onCreate` it stops the pipeline. The phase
returns `continue = false`. When the Record-and-Update step around `onCreate` fails, the
phase returns that error and the annotation-setting update is not issued. When the step
succeeds, the phase returns the error of `setInitialized`, which for a record is exactly the
result of the one annotation-setting store update. And a `sync` that invokes `onCreate`
returns the phase's error with a nil object, without invoking `onUpdate`. -/
theorem C16_create_stops_pipeline (a : objectLifecycleAdapter) (hist : Trace) (key : String)
    (ob : Object) (hcall : 0 < countCalls Hook.create (a.create hist (some ob)).2) :
    (a.create hist (some ob)).1.2.1 = false ∧
      (∀ e, (a.createRecordStep hist (some ob)).1.2 = some e →
        (a.create hist (some ob)).1.2.2 = some e ∧
          countUpdates Site.setInitialized (a.create hist (some ob)).2 = 0) ∧
      ((a.createRecordStep hist (some ob)).1.2 = none →
        (a.create hist (some ob)).1.2.2 = (a.createAnnotationStep hist (some ob)).1.2 ∧
          ∀ x mx, (a.createRecordStep hist (some ob)).1.1 = some x → x.objectMeta = some mx →
            ∃ w, (a.createAnnotationStep hist (some ob)).2 =
                [Event.update Site.setInitialized mx.name w] ∧
              (a.createAnnotationStep hist (some ob)).1 =
                a.objectClient.Update
                  (hist ++ (a.createFinalizerStep hist (some ob)).2 ++
                    (a.createRecordStep hist (some ob)).2)
                  Site.setInitialized mx.name w) ∧
      (0 < countCalls Hook.create (a.sync hist key (Input.object ob)).2 →
        (a.sync hist key (Input.object ob)).1 = (none, (a.create hist (some ob)).1.2.2) ∧
          countCalls Hook.updated (a.sync hist key (Input.object ob)).2 = 0) := by
  have hcr := create_of_call a hist ob hcall
  refine ⟨create_stop_of_call a hist (some ob) hcall, ?_, ?_, ?_⟩
  · intro e he
    rw [hcr, he]
    refine ⟨rfl, ?_⟩
    unfold objectLifecycleAdapter.createRecordStep objectLifecycleAdapter.createFinalizerStep
    simp [ensureFinalizer_countUpdates_ne, record_countUpdates_ne]
  · intro hnone
    rw [hcr, hnone]
    refine ⟨rfl, ?_⟩
    intro x mx hx hmx
    unfold objectLifecycleAdapter.createAnnotationStep
    rw [hx]
    unfold objectLifecycleAdapter.setInitialized
    rw [Accessor_some x mx hmx]
    exact ⟨_, rfl, rfl⟩
  · intro hsync
    unfold objectLifecycleAdapter.sync at hsync ⊢
    obtain ⟨_, hs⟩ := sync_create_call_stops a hist key ob hsync
    rw [hs]
    exact ⟨rfl, create_countCalls_ne a hist (some ob) Hook.updated (by decide)⟩

theorem C16_create_stops_pipeline_witness :
    (demoAdapter.create [] (some freshRecord)).1.2.1 = false ∧
      (demoAdapter.create [] (some freshRecord)).1.2.2 =
        (demoAdapter.createAnnotationStep [] (some freshRecord)).1.2 ∧
      (demoAdapter.sync [] "r1" (Input.object freshRecord)).1 =
        (none, (demoAdapter.create [] (some freshRecord)).1.2.2) ∧
      countCalls Hook.updated (demoAdapter.sync [] "r1" (Input.object freshRecord)).2 = 0 :=
  ⟨(C16_create_stops_pipeline demoAdapter [] "r1" freshRecord (by decide)).1,
    ((C16_create_stops_pipeline demoAdapter [] "r1" freshRecord (by decide)).2.2.1
      (by decide)).1,
    ((C16_create_stops_pipeline demoAdapter [] "r1" freshRecord (by decide)).2.2.2
      (by decide)).1,
    ((C16_create_stops_pipeline demoAdapter [] "r1" freshRecord (by decide)).2.2.2
      (by decide)).2⟩

/-! ## The persisted keys -/

theorem string_append_left_cancel (s t1 t2 : String) (h : s ++ t1 = s ++ t2) : t1 = t2 := by
  have hd := congrArg String.data h
  rw [String.data_append, String.data_append] at hd
  exact String.ext (List.append_cancel_left hd)

theorem scoped_key_ne_namespaced_key (n1 n2 : String) :
    ScopedFinalizerKey ++ n1 ≠ finalizerKey ++ n2 := by
  intro h
  have hd := congrArg String.data h
  rw [String.data_append, String.data_append] at hd
  have h1 : ScopedFinalizerKey.data = 'c' :: 'l' :: "usterscoped.controller.cattle.io/".data := by
    decide
  have h2 : finalizerKey.data = 'c' :: 'o' :: "ntroller.cattle.io/".data := by decide
  rw [h1, h2] at hd
  simp at hd

/-- C15. The finalizer key distinguishes scope and adapter: two adapters have equal
finalizer keys only if they have the same scope and the same name, so the key of a
cluster-scoped adapter differs from the key of every namespaced adapter; and two adapters
have equal create keys only if they have the same name. -/
theorem C15_keys_injective :
    (∀ a b : objectLifecycleAdapter, a.constructFinalizerKey = b.constructFinalizerKey →
        a.clusterScoped = b.clusterScoped ∧ a.name = b.name) ∧
      (∀ a b : objectLifecycleAdapter, a.clusterScoped = true → b.clusterScoped = false →
        a.constructFinalizerKey ≠ b.constructFinalizerKey) ∧
      (∀ a b : objectLifecycleAdapter, a.createKey = b.createKey → a.name = b.name) := by
  refine ⟨?_, ?_, ?_⟩
  · intro a b h
    unfold objectLifecycleAdapter.constructFinalizerKey at h
    cases ha : a.clusterScoped <;> cases hb : b.clusterScoped <;>
      simp only [ha, hb, Bool.false_eq_true, if_false, if_true] at h
    · exact ⟨rfl, string_append_left_cancel _ _ _ h⟩
    · exact absurd h.symm (scoped_key_ne_namespaced_key _ _)
    · exact absurd h (scoped_key_ne_namespaced_key _ _)
    · exact ⟨rfl, string_append_left_cancel _ _ _ h⟩
  · intro a b ha hb h
    unfold objectLifecycleAdapter.constructFinalizerKey at h
    simp only [ha, hb, Bool.false_eq_true, if_false, if_true] at h
    exact scoped_key_ne_namespaced_key _ _ h
  · intro a b h
    unfold objectLifecycleAdapter.createKey at h
    exact string_append_left_cancel _ _ _ h

/-! ## The finalizer list written by `removeFinalizer` -/

theorem filterFinalizers_foldl (name : String) (l : List String) :
    ∀ acc : Option (List String),
      (l.foldl (fun acc finalizer =>
        if finalizer = name then acc else goAppend acc finalizer) acc).getD [] =
        acc.getD [] ++ l.filter (fun f => decide (f ≠ name)) := by
  induction l with
  | nil => intro acc; simp
  | cons x xs ih =>
    intro acc
    rw [List.foldl_cons, ih]
    by_cases hx : x = name
    · simp [hx]
    · simp [hx, goAppend]

/-- The inner loop of `removeFinalizer` keeps, in order, the entries other than `name`. -/
theorem filterFinalizers_getD (fs : Option (List String)) (name : String) :
    (filterFinalizers fs name).getD [] = (fs.getD []).filter (fun f => decide (f ≠ name)) := by
  unfold filterFinalizers
  rw [filterFinalizers_foldl]
  simp

theorem filterFinalizers_not_mem (fs : Option (List String)) (name : String) :
    name ∉ (filterFinalizers fs name).getD [] := by
  rw [filterFinalizers_getD]
  simp

/-- Every update issued by the loop of `removeFinalizer` writes the attempt's base object
with the filtered finalizer list; the base is the loop's input on the first attempt and the
object handed back by the preceding re-fetch afterwards. -/
theorem removeFinalizerLoop_writes (a : objectLifecycleAdapter) (name : String) (k : Nat) :
    ∀ (hist : Trace) (obj : Option Object) (pre post : Trace) (s : Site) (n : String)
      (w : Object),
      (a.removeFinalizerLoop name k hist obj).2 = pre ++ Event.update s n w :: post →
      ∃ base mb, base.objectMeta = some mb ∧
        w = base.withMeta { mb with finalizers := filterFinalizers mb.finalizers name } ∧
        ((pre = [] ∧ obj = some base) ∨
          ∃ pre1 ns nm, pre = pre1 ++ [Event.get ns nm] ∧
            a.objectClient.GetNamespaced (hist ++ pre1) ns nm = (some base, none)) := by
  induction k with
  | zero =>
    intro hist obj pre post s n w h
    simp [objectLifecycleAdapter.removeFinalizerLoop] at h
  | succ j ih =>
    intro hist obj pre post s n w h
    unfold objectLifecycleAdapter.removeFinalizerLoop at h
    cases hacc : Accessor obj with
    | error err =>
      rw [hacc] at h
      simp at h
    | ok p =>
      obtain ⟨ob, m⟩ := p
      obtain ⟨hobj, hm⟩ := Accessor_ok_inv obj ob m hacc
      rw [hacc] at h
      dsimp only at h
      have hfirst : ∀ t : Trace,
          Event.update Site.removeFinalizer m.name
              (ob.withMeta { m with finalizers := filterFinalizers m.finalizers name }) :: t =
            pre ++ Event.update s n w :: post → pre = [] →
          ∃ base mb, base.objectMeta = some mb ∧
            w = base.withMeta { mb with finalizers := filterFinalizers mb.finalizers name } ∧
            ((pre = [] ∧ obj = some base) ∨
              ∃ pre1 ns nm, pre = pre1 ++ [Event.get ns nm] ∧
                a.objectClient.GetNamespaced (hist ++ pre1) ns nm = (some base, none)) := by
        intro t ht hpre
        subst hpre
        simp only [List.nil_append, List.cons.injEq, Event.update.injEq] at ht
        exact ⟨ob, m, hm, ht.1.2.2.symm, Or.inl ⟨rfl, hobj⟩⟩
      split at h
      · cases pre with
        | nil => exact hfirst _ h rfl
        | cons p ps => simp at h
      · split at h
        · cases pre with
          | nil => exact hfirst _ h rfl
          | cons p ps =>
            cases ps with
            | nil => simp at h
            | cons q qs => simp at h
        · rename_i hgerr
          cases pre with
          | nil => exact hfirst _ h rfl
          | cons p ps =>
            cases ps with
            | nil => simp at h
            | cons q qs =>
              simp only [List.cons_append, List.append_assoc, List.singleton_append,
                List.nil_append, List.cons.injEq] at h
              have hp := h.1
              have hq := h.2.1
              have hrest := h.2.2
              obtain ⟨base, mb, hb1, hb2, hb3⟩ := ih _ _ qs post s n w hrest
              refine ⟨base, mb, hb1, hb2, Or.inr ?_⟩
              rcases hb3 with ⟨hqs, hg⟩ | ⟨pre1, ns, nm, hqs, hg⟩
              · refine ⟨[p], m.ns, m.name, ?_, ?_⟩
                · rw [hqs, ← hq]
                  rfl
                · rw [← hp]
                  exact Prod.ext hg hgerr
              · refine ⟨p :: q :: pre1, ns, nm, ?_, ?_⟩
                · rw [hqs]
                  rfl
                · rw [← hp, ← hq]
                  simpa [List.append_assoc] using hg

/-- C17. Finalizer-removal recomputation: in every attempt of `removeFinalizer`, the object
passed to the store update is the attempt's base object (the input object on attempt 1, the
object returned by the preceding `getByName` on later attempts) with a finalizer list that
holds the base's entries other than the adapter's key, in their original order; the written
list never contains the key. -/
theorem C17_removal_recomputation (a : objectLifecycleAdapter) (hist : Trace) (name : String)
    (obj : Option Object) (pre post : Trace) (s : Site) (n : String) (w : Object)
    (h : (a.removeFinalizer hist name obj).2 = pre ++ Event.update s n w :: post) :
    ∃ base mb wm, base.objectMeta = some mb ∧ w.objectMeta = some wm ∧
      w = base.withMeta { mb with finalizers := wm.finalizers } ∧
      wm.finalizers.getD [] = (mb.finalizers.getD []).filter (fun f => decide (f ≠ name)) ∧
      name ∉ wm.finalizers.getD [] ∧
      ((pre = [] ∧ obj = some base) ∨
        ∃ pre1 ns nm, pre = pre1 ++ [Event.get ns nm] ∧
          a.objectClient.GetNamespaced (hist ++ pre1) ns nm = (some base, none)) := by
  obtain ⟨base, mb, hb1, hb2, hb3⟩ :=
    removeFinalizerLoop_writes a name 3 hist obj pre post s n w h
  refine ⟨base, mb, { mb with finalizers := filterFinalizers mb.finalizers name }, hb1, ?_, ?_,
    filterFinalizers_getD _ _, filterFinalizers_not_mem _ _, hb3⟩
  · rw [hb2]
    rfl
  · exact hb2

theorem C17_removal_recomputation_witness :
    ∃ base mb wm, base.objectMeta = some mb ∧ tombReleased.objectMeta = some wm ∧
      tombReleased = base.withMeta { mb with finalizers := wm.finalizers } ∧
      wm.finalizers.getD [] =
        (mb.finalizers.getD []).filter (fun f => decide (f ≠ "controller.cattle.io/a")) ∧
      "controller.cattle.io/a" ∉ wm.finalizers.getD [] ∧
      (([] = ([] : Trace) ∧ some tombRecord = some base) ∨
        ∃ pre1 ns nm, [] = pre1 ++ [Event.get ns nm] ∧
          demoAdapter.objectClient.GetNamespaced ([] ++ pre1) ns nm = (some base, none)) :=
  C17_removal_recomputation demoAdapter [] "controller.cattle.io/a" (some tombRecord) [] []
    Site.removeFinalizer "r1" tombReleased (by decide)

/-! ## Bounds on the calls of one invocation -/

@[simp] theorem countAllUpdates_nil : countAllUpdates [] = 0 := rfl

@[simp] theorem countAllUpdates_append (t u : Trace) :
    countAllUpdates (t ++ u) = countAllUpdates t + countAllUpdates u := by
  simp [countAllUpdates, List.countP_append]

@[simp] theorem countAllUpdates_cons_call (g : Hook) (ob : Object) (t : Trace) :
    countAllUpdates (Event.call g ob :: t) = countAllUpdates t := by
  simp [countAllUpdates, List.countP_cons]

@[simp] theorem countAllUpdates_cons_update (s1 : Site) (n : String) (ob : Object) (t : Trace) :
    countAllUpdates (Event.update s1 n ob :: t) = 1 + countAllUpdates t := by
  simp [countAllUpdates, List.countP_cons, Nat.add_comm]

@[simp] theorem countAllUpdates_cons_get (n1 n2 : String) (t : Trace) :
    countAllUpdates (Event.get n1 n2 :: t) = countAllUpdates t := by
  simp [countAllUpdates, List.countP_cons]

theorem update_bounds (a : objectLifecycleAdapter) (hist : Trace) (n : String)
    (orig obj : Option Object) :
    countAllUpdates (a.update hist n orig obj).2 ≤ 1 ∧ countGets (a.update hist n orig obj).2 = 0 := by
  unfold objectLifecycleAdapter.update
  split
  · split
    · dsimp only
      split <;> simp
    · simp
  · simp
  · simp

/-- The Record-and-Update protocol issues at most one store update, no re-fetch, and
exactly the one callback it is given, at most once. -/
theorem record_bounds (a : objectLifecycleAdapter) (hist : Trace) (obj : Option Object)
    (f : Hook) :
    countAllUpdates (a.record hist obj f).2 ≤ 1 ∧ countGets (a.record hist obj f).2 = 0 ∧
      ∀ h, countCalls h (a.record hist obj f).2 ≤ 1 := by
  unfold objectLifecycleAdapter.record
  split
  · simp
  · dsimp only
    split
    · refine ⟨?_, ?_, fun h => ?_⟩
      · simpa using (update_bounds a _ _ _ _).1
      · simpa using (update_bounds a _ _ _ _).2
      · simp only [checkNil_trace, List.singleton_append, countCalls_cons_call, update_countCalls]
        split <;> simp
    · refine ⟨?_, ?_, fun h => ?_⟩
      · simpa using (update_bounds a _ _ _ _).1
      · simpa using (update_bounds a _ _ _ _).2
      · simp only [checkNil_trace, List.singleton_append, countCalls_cons_call, update_countCalls]
        split <;> simp
    · refine ⟨by simp, by simp, fun h => ?_⟩
      simp only [checkNil_trace, countCalls_cons_call, countCalls_nil]
      split <;> simp

theorem removeFinalizerLoop_bounds (a : objectLifecycleAdapter) (name : String) (k : Nat) :
    ∀ (hist : Trace) (obj : Option Object),
      countAllUpdates (a.removeFinalizerLoop name k hist obj).2 ≤ k ∧
        countGets (a.removeFinalizerLoop name k hist obj).2 ≤ k := by
  induction k with
  | zero => intro hist obj; simp [objectLifecycleAdapter.removeFinalizerLoop]
  | succ j ih =>
    intro hist obj
    unfold objectLifecycleAdapter.removeFinalizerLoop
    split
    · simp
    · dsimp only
      split
      · simp
      · split
        · simp
        · constructor
          · simp only [countAllUpdates_append, countAllUpdates_cons_update,
              countAllUpdates_cons_get, countAllUpdates_nil, Nat.add_zero, Nat.zero_add]
            rw [Nat.add_comm]
            exact Nat.add_le_add_right (ih _ _).1 1
          · simp only [countGets_append, countGets_cons_update, countGets_cons_get,
              countGets_nil, Nat.add_zero, Nat.zero_add]
            rw [Nat.add_comm]
            exact Nat.add_le_add_right (ih _ _).2 1

theorem finalize_bounds (a : objectLifecycleAdapter) (hist : Trace) (obj : Option Object) :
    countAllUpdates (a.finalize hist obj).2 ≤ 4 ∧ countGets (a.finalize hist obj).2 ≤ 3 ∧
      countCalls Hook.finalize (a.finalize hist obj).2 ≤ 1 := by
  unfold objectLifecycleAdapter.finalize
  split
  · simp
  · split
    · simp
    · dsimp only
      split
      · simp
      · split
        · simp
        · have hr := record_bounds a hist obj Hook.finalize
          split
          · exact ⟨Nat.le_trans hr.1 (by decide), le_of_eq_of_le hr.2.1 (Nat.zero_le _), hr.2.2 _⟩
          · have hq := removeFinalizerLoop_bounds a a.constructFinalizerKey 3
              (hist ++ (a.record hist obj Hook.finalize).2)
              (maybeDeepCopy obj (a.record hist obj Hook.finalize).1.1)
            unfold objectLifecycleAdapter.removeFinalizer
            refine ⟨?_, ?_, ?_⟩
            · rw [countAllUpdates_append]
              have := hr.1
              have := hq.1
              omega
            · rw [countGets_append, hr.2.1]
              have := hq.2
              omega
            · rw [countCalls_append, removeFinalizerLoop_countCalls]
              exact hr.2.2 _

theorem addFinalizer_bounds (a : objectLifecycleAdapter) (hist : Trace) (obj : Option Object) :
    countAllUpdates (a.addFinalizer hist obj).2 ≤ 1 ∧ countGets (a.addFinalizer hist obj).2 = 0 := by
  unfold objectLifecycleAdapter.addFinalizer
  split
  · simp
  · split
    · simp
    · dsimp only
      split <;> simp

theorem setInitialized_bounds (a : objectLifecycleAdapter) (hist : Trace) (obj : Option Object) :
    countAllUpdates (a.setInitialized hist obj).2 ≤ 1 ∧
      countGets (a.setInitialized hist obj).2 = 0 := by
  unfold objectLifecycleAdapter.setInitialized
  split <;> simp

theorem create_bounds (a : objectLifecycleAdapter) (hist : Trace) (obj : Option Object) :
    countAllUpdates (a.create hist obj).2 ≤ 3 ∧ countGets (a.create hist obj).2 = 0 ∧
      ((a.create hist obj).1.2.1 = true → countAllUpdates (a.create hist obj).2 ≤ 1) := by
  have haf : ∀ h o, countAllUpdates
      (if a.hasFinalize = true then a.addFinalizer h o else ((o, none), [])).2 ≤ 1 ∧
      countGets (if a.hasFinalize = true then a.addFinalizer h o else ((o, none), [])).2 = 0 := by
    intro h o
    split
    · exact addFinalizer_bounds a h o
    · simp
  unfold objectLifecycleAdapter.create
  split
  · simp
  · split
    · simp
    · dsimp only
      have h1 := haf hist obj
      split
      · exact ⟨Nat.le_trans h1.1 (by decide), h1.2, fun h => by simp at h⟩
      · split
        · exact ⟨Nat.le_trans h1.1 (by decide), h1.2, fun _ => h1.1⟩
        · have h2 := record_bounds a
            (hist ++ (if a.hasFinalize = true then a.addFinalizer hist obj
              else ((obj, none), [])).2)
            (if a.hasFinalize = true then a.addFinalizer hist obj else ((obj, none), [])).1.1
            Hook.create
          split
          · refine ⟨?_, ?_, fun h => by simp at h⟩
            · rw [countAllUpdates_append]
              have := h1.1
              have := h2.1
              omega
            · rw [countGets_append, h1.2, h2.2.1]
          · have h3 := setInitialized_bounds a
              (hist ++ (if a.hasFinalize = true then a.addFinalizer hist obj
                  else ((obj, none), [])).2 ++
                (a.record
                  (hist ++ (if a.hasFinalize = true then a.addFinalizer hist obj
                    else ((obj, none), [])).2)
                  (if a.hasFinalize = true then a.addFinalizer hist obj
                    else ((obj, none), [])).1.1 Hook.create).2)
              (a.record
                (hist ++ (if a.hasFinalize = true then a.addFinalizer hist obj
                  else ((obj, none), [])).2)
                (if a.hasFinalize = true then a.addFinalizer hist obj
                  else ((obj, none), [])).1.1 Hook.create).1.1
            refine ⟨?_, ?_, fun h => by simp at h⟩
            · rw [countAllUpdates_append, countAllUpdates_append]
              have := h1.1
              have := h2.1
              have := h3.1
              omega
            · rw [countGets_append, countGets_append, h1.2, h2.2.1, h3.2]

/-- C19. Bounded store traffic per invocation: for every input, callback behaviour and
store behaviour, one `sync` invocation issues at most 4 store updates and at most 3
`getByName` calls and invokes each of `onFinalize`, `onCreate` and `onUpdate` at most once;
and `record` issues at most one store update, so a failed write is never retried there. -/
theorem C19_bounded_store_traffic (a : objectLifecycleAdapter) (hist : Trace) (key : String)
    (inp : Input) :
    countAllUpdates (a.sync hist key inp).2 ≤ 4 ∧ countGets (a.sync hist key inp).2 ≤ 3 ∧
      (∀ h, countCalls h (a.sync hist key inp).2 ≤ 1) ∧
      ∀ (hist1 : Trace) (obj : Option Object) (f : Hook),
        countAllUpdates (a.record hist1 obj f).2 ≤ 1 := by
  refine ⟨?_, ?_, ?_, fun hist1 obj f => (record_bounds a hist1 obj f).1⟩
  all_goals unfold objectLifecycleAdapter.sync
  all_goals cases inp with
    | nil => simp [objectLifecycleAdapter.syncContext]
    | typedNil => simp [objectLifecycleAdapter.syncContext]
    | foreign => simp [objectLifecycleAdapter.syncContext]
    | object ob => ?_
  · cases hc : (a.finalize hist (some ob)).1.2.1 with
    | false =>
      rw [sync_object_of_stop a hist key ob hc]
      exact (finalize_bounds a hist (some ob)).1
    | true =>
      rw [sync_object_of_continue a hist key ob hc]
      dsimp only
      have hcb := (create_bounds a hist (some ob)).1
      split
      · exact Nat.le_trans hcb (by decide)
      · rw [countAllUpdates_append]
        have hrb := (record_bounds a (hist ++ (a.create hist (some ob)).2)
          (if (a.create hist (some ob)).1.1.isSome = true then (a.create hist (some ob)).1.1
            else some ob) Hook.updated).1
        omega
  · cases hc : (a.finalize hist (some ob)).1.2.1 with
    | false =>
      rw [sync_object_of_stop a hist key ob hc]
      exact (finalize_bounds a hist (some ob)).2.1
    | true =>
      rw [sync_object_of_continue a hist key ob hc]
      dsimp only
      have hcb := (create_bounds a hist (some ob)).2.1
      split
      · exact le_of_eq_of_le hcb (Nat.zero_le _)
      · rw [countGets_append, hcb, (record_bounds a _ _ Hook.updated).2.1]
        decide
  · intro h
    cases hc : (a.finalize hist (some ob)).1.2.1 with
    | false =>
      rw [sync_object_of_stop a hist key ob hc]
      cases h with
      | create =>
        exact le_of_eq_of_le (finalize_countCalls_ne a hist (some ob) _ (by decide))
          (Nat.zero_le _)
      | finalize => exact (finalize_bounds a hist (some ob)).2.2
      | updated =>
        exact le_of_eq_of_le (finalize_countCalls_ne a hist (some ob) _ (by decide))
          (Nat.zero_le _)
    | true =>
      rw [sync_object_of_continue a hist key ob hc]
      dsimp only
      split
      · cases h with
        | create => exact create_countCalls_le a hist (some ob)
        | finalize =>
          exact le_of_eq_of_le (create_countCalls_ne a hist (some ob) _ (by decide))
            (Nat.zero_le _)
        | updated =>
          exact le_of_eq_of_le (create_countCalls_ne a hist (some ob) _ (by decide))
            (Nat.zero_le _)
      · rw [countCalls_append]
        cases h with
        | create =>
          rw [record_countCalls_ne a _ _ Hook.updated Hook.create (by decide)]
          exact create_countCalls_le a hist (some ob)
        | finalize =>
          rw [record_countCalls_ne a _ _ Hook.updated Hook.finalize (by decide),
            create_countCalls_ne a hist (some ob) _ (by decide)]
          decide
        | updated =>
          rw [create_countCalls_ne a hist (some ob) _ (by decide), Nat.zero_add]
          exact (record_bounds a _ _ Hook.updated).2.2 _

/-! ## Errors in the loop of `removeFinalizer` -/

theorem removeFinalizerLoop_noAccessor (a : objectLifecycleAdapter) (name : String) (k : Nat)
    (hist : Trace) (obj : Option Object) (err : Err)
    (hacc : Accessor obj = Except.error err) :
    a.removeFinalizerLoop name (k + 1) hist obj = ((none, some err), []) := by
  rw [objectLifecycleAdapter.removeFinalizerLoop]
  rw [hacc]

/-- An attempt whose update succeeds ends the loop with the store's object. -/
theorem removeFinalizerLoop_succ_ok (a : objectLifecycleAdapter) (name : String) (k : Nat)
    (hist : Trace) (ob : Object) (m : ObjectMeta) (hm : ob.objectMeta = some m)
    (hU : (a.objectClient.Update hist Site.removeFinalizer m.name
      (attemptObject name ob m)).2 = none) :
    a.removeFinalizerLoop name (k + 1) hist (some ob) =
      (((a.objectClient.Update hist Site.removeFinalizer m.name (attemptObject name ob m)).1,
          none),
        [Event.update Site.removeFinalizer m.name (attemptObject name ob m)]) := by
  rw [objectLifecycleAdapter.removeFinalizerLoop]
  rw [Accessor_some ob m hm]
  unfold attemptObject at hU ⊢
  simp only [hU]

/-- An attempt whose update fails and whose re-fetch fails ends the loop with the error of
the re-fetch. -/
theorem removeFinalizerLoop_succ_getfail (a : objectLifecycleAdapter) (name : String) (k : Nat)
    (hist : Trace) (ob : Object) (m : ObjectMeta) (hm : ob.objectMeta = some m) (e1 e : Err)
    (hU : (a.objectClient.Update hist Site.removeFinalizer m.name
      (attemptObject name ob m)).2 = some e1)
    (hG : (a.objectClient.GetNamespaced
      (hist ++ [Event.update Site.removeFinalizer m.name (attemptObject name ob m)])
      m.ns m.name).2 = some e) :
    a.removeFinalizerLoop name (k + 1) hist (some ob) =
      ((none, some e),
        [Event.update Site.removeFinalizer m.name (attemptObject name ob m),
          Event.get m.ns m.name]) := by
  rw [objectLifecycleAdapter.removeFinalizerLoop]
  rw [Accessor_some ob m hm]
  unfold attemptObject at hU hG ⊢
  simp only [hU, hG]
  rfl

/-- An attempt whose update fails and whose re-fetch succeeds is followed by the next
attempt, on the fetched object. -/
theorem removeFinalizerLoop_succ_retry (a : objectLifecycleAdapter) (name : String) (k : Nat)
    (hist : Trace) (ob : Object) (m : ObjectMeta) (hm : ob.objectMeta = some m) (e1 : Err)
    (hU : (a.objectClient.Update hist Site.removeFinalizer m.name
      (attemptObject name ob m)).2 = some e1)
    (hG : (a.objectClient.GetNamespaced
      (hist ++ [Event.update Site.removeFinalizer m.name (attemptObject name ob m)])
      m.ns m.name).2 = none) :
    a.removeFinalizerLoop name (k + 1) hist (some ob) =
      ((a.removeFinalizerLoop name k
          (hist ++ [Event.update Site.removeFinalizer m.name (attemptObject name ob m),
            Event.get m.ns m.name])
          (a.objectClient.GetNamespaced
            (hist ++ [Event.update Site.removeFinalizer m.name (attemptObject name ob m)])
            m.ns m.name).1).1,
        Event.update Site.removeFinalizer m.name (attemptObject name ob m) ::
          Event.get m.ns m.name ::
          (a.removeFinalizerLoop name k
            (hist ++ [Event.update Site.removeFinalizer m.name (attemptObject name ob m),
              Event.get m.ns m.name])
            (a.objectClient.GetNamespaced
              (hist ++ [Event.update Site.removeFinalizer m.name (attemptObject name ob m)])
              m.ns m.name).1).2) := by
  rw [objectLifecycleAdapter.removeFinalizerLoop]
  rw [Accessor_some ob m hm]
  unfold attemptObject at hU hG ⊢
  simp only [hU, hG]
  rfl

theorem errNotObject_ne_exhausted (name : String) : errNotObject ≠ exhaustedError name := by
  intro h
  have hd := congrArg String.data h
  unfold exhaustedError at hd
  rw [String.data_append] at hd
  have h1 : errNotObject.data = 'o' :: "bject does not implement the Object interfaces".data := by
    decide
  have h2 : "failed to remove finalizer on ".data = 'f' :: "ailed to remove finalizer on ".data := by
    decide
  rw [h1, h2] at hd
  simp at hd

/-- In the loop of `removeFinalizer` every failed update is followed by a re-fetch. -/
theorem removeFinalizerLoop_failed_update (a : objectLifecycleAdapter) (name : String)
    (k : Nat) :
    ∀ (hist : Trace) (obj : Option Object) (pre post : Trace) (s : Site) (n : String)
      (w : Object),
      (a.removeFinalizerLoop name k hist obj).2 = pre ++ Event.update s n w :: post →
      (a.objectClient.Update (hist ++ pre) Site.removeFinalizer n w).2 ≠ none →
      ∃ ns nm post1, post = Event.get ns nm :: post1 := by
  induction k with
  | zero =>
    intro hist obj pre post s n w h
    simp [objectLifecycleAdapter.removeFinalizerLoop] at h
  | succ j ih =>
    intro hist obj pre post s n w h hfail
    cases hacc : Accessor obj with
    | error err =>
      rw [removeFinalizerLoop_noAccessor a name j hist obj err hacc] at h
      simp at h
    | ok p =>
      obtain ⟨ob, m⟩ := p
      obtain ⟨hobj, hm⟩ := Accessor_ok_inv obj ob m hacc
      subst hobj
      cases hU : (a.objectClient.Update hist Site.removeFinalizer m.name
          (attemptObject name ob m)).2 with
      | none =>
        rw [removeFinalizerLoop_succ_ok a name j hist ob m hm hU] at h
        cases pre with
        | nil =>
          simp only [List.nil_append, List.cons.injEq, Event.update.injEq] at h
          obtain ⟨⟨_, hn, hw⟩, _⟩ := h
          subst hn hw
          simp [hU] at hfail
        | cons p ps => cases ps <;> simp at h
      | some e1 =>
        cases hG : (a.objectClient.GetNamespaced
            (hist ++ [Event.update Site.removeFinalizer m.name (attemptObject name ob m)])
            m.ns m.name).2 with
        | some e =>
          rw [removeFinalizerLoop_succ_getfail a name j hist ob m hm e1 e hU hG] at h
          cases pre with
          | nil =>
            simp only [List.nil_append, List.cons.injEq] at h
            exact ⟨_, _, [], h.2.symm⟩
          | cons p ps =>
            cases ps with
            | nil => simp at h
            | cons q qs => cases qs <;> simp at h
        | none =>
          rw [removeFinalizerLoop_succ_retry a name j hist ob m hm e1 hU hG] at h
          cases pre with
          | nil =>
            simp only [List.nil_append, List.cons.injEq] at h
            exact ⟨_, _, _, h.2.symm⟩
          | cons p ps =>
            cases ps with
            | nil => simp at h
            | cons q qs =>
              simp only [List.cons_append, List.cons.injEq] at h
              have hh : hist ++ p :: q :: qs =
                  (hist ++ [Event.update Site.removeFinalizer m.name (attemptObject name ob m),
                    Event.get m.ns m.name]) ++ qs := by
                rw [← h.1, ← h.2.1]
                simp
              rw [hh] at hfail
              exact ih _ _ qs post s n w h.2.2 hfail

/-- In the loop of `removeFinalizer` a failed re-fetch is the last call, and its error is
returned with a nil object. -/
theorem removeFinalizerLoop_failed_get (a : objectLifecycleAdapter) (name : String) (k : Nat) :
    ∀ (hist : Trace) (obj : Option Object) (pre post : Trace) (ns nm : String) (e : Err),
      (a.removeFinalizerLoop name k hist obj).2 = pre ++ Event.get ns nm :: post →
      (a.objectClient.GetNamespaced (hist ++ pre) ns nm).2 = some e →
      post = [] ∧ (a.removeFinalizerLoop name k hist obj).1 = (none, some e) := by
  induction k with
  | zero =>
    intro hist obj pre post ns nm e h
    simp [objectLifecycleAdapter.removeFinalizerLoop] at h
  | succ j ih =>
    intro hist obj pre post ns nm e h hfail
    cases hacc : Accessor obj with
    | error err =>
      rw [removeFinalizerLoop_noAccessor a name j hist obj err hacc] at h
      simp at h
    | ok p =>
      obtain ⟨ob, m⟩ := p
      obtain ⟨hobj, hm⟩ := Accessor_ok_inv obj ob m hacc
      subst hobj
      cases hU : (a.objectClient.Update hist Site.removeFinalizer m.name
          (attemptObject name ob m)).2 with
      | none =>
        rw [removeFinalizerLoop_succ_ok a name j hist ob m hm hU] at h
        cases pre with
        | nil => simp at h
        | cons p ps => cases ps <;> simp at h
      | some e1 =>
        cases hG : (a.objectClient.GetNamespaced
            (hist ++ [Event.update Site.removeFinalizer m.name (attemptObject name ob m)])
            m.ns m.name).2 with
        | some e0 =>
          rw [removeFinalizerLoop_succ_getfail a name j hist ob m hm e1 e0 hU hG] at h ⊢
          cases pre with
          | nil => simp at h
          | cons p ps =>
            cases ps with
            | nil =>
              simp only [List.cons_append, List.nil_append, List.cons.injEq,
                Event.get.injEq] at h
              obtain ⟨hp, ⟨hns, hnm⟩, hpost⟩ := h
              subst hns hnm
              rw [← hp, hG] at hfail
              cases hfail
              exact ⟨hpost.symm, rfl⟩
            | cons q qs => cases qs <;> simp at h
        | none =>
          rw [removeFinalizerLoop_succ_retry a name j hist ob m hm e1 hU hG] at h ⊢
          cases pre with
          | nil => simp at h
          | cons p ps =>
            cases ps with
            | nil =>
              simp only [List.cons_append, List.nil_append, List.cons.injEq,
                Event.get.injEq] at h
              obtain ⟨hp, ⟨hns, hnm⟩, _⟩ := h
              subst hns hnm
              rw [← hp, hG] at hfail
              cases hfail
            | cons q qs =>
              simp only [List.cons_append, List.cons.injEq] at h
              have hh : hist ++ p :: q :: qs =
                  (hist ++ [Event.update Site.removeFinalizer m.name (attemptObject name ob m),
                    Event.get m.ns m.name]) ++ qs := by
                rw [← h.1, ← h.2.1]
                simp
              rw [hh] at hfail
              exact ih _ _ qs post ns nm e h.2.2 hfail

/-- The loop of `removeFinalizer` ends with the exhausted-retry error only after using up
all its attempts, provided the store's re-fetch never fails with that very error. -/
theorem removeFinalizerLoop_exhausted_only (a : objectLifecycleAdapter) (name : String)
    (hget : ∀ h ns nm, (a.objectClient.GetNamespaced h ns nm).2 ≠ some (exhaustedError name))
    (k : Nat) :
    ∀ (hist : Trace) (obj : Option Object),
      (a.removeFinalizerLoop name k hist obj).1.2 = some (exhaustedError name) →
      countUpdates Site.removeFinalizer (a.removeFinalizerLoop name k hist obj).2 = k ∧
        countGets (a.removeFinalizerLoop name k hist obj).2 = k := by
  induction k with
  | zero =>
    intro hist obj _
    simp [objectLifecycleAdapter.removeFinalizerLoop]
  | succ j ih =>
    intro hist obj hres
    cases hacc : Accessor obj with
    | error err =>
      have herr : err = errNotObject := by
        unfold Accessor at hacc
        split at hacc
        · cases hacc; rfl
        · split at hacc
          · cases hacc; rfl
          · cases hacc
      rw [removeFinalizerLoop_noAccessor a name j hist obj err hacc, herr] at hres
      exact absurd (Option.some.inj hres) (errNotObject_ne_exhausted name)
    | ok p =>
      obtain ⟨ob, m⟩ := p
      obtain ⟨hobj, hm⟩ := Accessor_ok_inv obj ob m hacc
      subst hobj
      cases hU : (a.objectClient.Update hist Site.removeFinalizer m.name
          (attemptObject name ob m)).2 with
      | none =>
        rw [removeFinalizerLoop_succ_ok a name j hist ob m hm hU] at hres
        cases hres
      | some e1 =>
        cases hG : (a.objectClient.GetNamespaced
            (hist ++ [Event.update Site.removeFinalizer m.name (attemptObject name ob m)])
            m.ns m.name).2 with
        | some e0 =>
          rw [removeFinalizerLoop_succ_getfail a name j hist ob m hm e1 e0 hU hG] at hres
          rw [Option.some.inj hres] at hG
          exact absurd hG (hget _ _ _)
        | none =>
          rw [removeFinalizerLoop_succ_retry a name j hist ob m hm e1 hU hG] at hres ⊢
          obtain ⟨h1, h2⟩ := ih _ _ hres
          constructor
          · simp only [countUpdates_cons_update, countUpdates_cons_get, if_true, h1]
            omega
          · simp only [countGets_cons_update, countGets_cons_get, h2]
            omega

/-- C20. `removeFinalizer` does not distinguish error classes. After any failed store
update it calls `getByName`, the third failed update included. If a `getByName` fails, it is
the last call and `removeFinalizer` returns that error with a nil object. The
exhausted-retry error of `removeFinalizer` (as opposed to a store error that merely carries
the same text) is returned only after 3 updates and 3 re-fetches, and it is returned
whenever every update fails and every re-fetch hands back a record. -/
theorem C20_removeFinalizer_error_classes (a : objectLifecycleAdapter) (hist : Trace)
    (name : String) (obj : Option Object) :
    (∀ (pre post : Trace) (s : Site) (n : String) (w : Object),
        (a.removeFinalizer hist name obj).2 = pre ++ Event.update s n w :: post →
        (a.objectClient.Update (hist ++ pre) Site.removeFinalizer n w).2 ≠ none →
        ∃ ns nm post1, post = Event.get ns nm :: post1) ∧
      (∀ (pre post : Trace) (ns nm : String) (e : Err),
        (a.removeFinalizer hist name obj).2 = pre ++ Event.get ns nm :: post →
        (a.objectClient.GetNamespaced (hist ++ pre) ns nm).2 = some e →
        post = [] ∧ (a.removeFinalizer hist name obj).1 = (none, some e)) ∧
      ((∀ h ns nm, (a.objectClient.GetNamespaced h ns nm).2 ≠ some (exhaustedError name)) →
        (a.removeFinalizer hist name obj).1.2 = some (exhaustedError name) →
        countUpdates Site.removeFinalizer (a.removeFinalizer hist name obj).2 = 3 ∧
          countGets (a.removeFinalizer hist name obj).2 = 3) ∧
      (∀ ob m, obj = some ob → ob.objectMeta = some m →
        (∀ h n o, (a.objectClient.Update h Site.removeFinalizer n o).2 ≠ none) →
        (∀ h ns n, ∃ o1 m1, a.objectClient.GetNamespaced h ns n = (some o1, none) ∧
          o1.objectMeta = some m1) →
        (a.removeFinalizer hist name obj).1 = (none, some (exhaustedError name)) ∧
          countUpdates Site.removeFinalizer (a.removeFinalizer hist name obj).2 = 3 ∧
          countGets (a.removeFinalizer hist name obj).2 = 3) := by
  unfold objectLifecycleAdapter.removeFinalizer
  refine ⟨?_, ?_, ?_, ?_⟩
  · exact removeFinalizerLoop_failed_update a name 3 hist obj
  · exact removeFinalizerLoop_failed_get a name 3 hist obj
  · intro hget hres
    exact removeFinalizerLoop_exhausted_only a name hget 3 hist obj hres
  · intro ob m hobj hm hupd hget
    subst hobj
    exact removeFinalizerLoop_exhaust a name hupd hget 3 hist ob m hm

theorem C20_removeFinalizer_error_classes_witness :
    (∃ ns nm post1, [Event.get "" "r1"] = Event.get ns nm :: post1) ∧
      (([] : Trace) = [] ∧
        (conflictAdapter.removeFinalizer [] "controller.cattle.io/a" (some tombRecord)).1 =
          (none, some "not found")) ∧
      ((contendedAdapter.removeFinalizer [] "controller.cattle.io/a" (some tombRecord)).1 =
          (none, some (exhaustedError "controller.cattle.io/a")) ∧
        countUpdates Site.removeFinalizer
          (contendedAdapter.removeFinalizer [] "controller.cattle.io/a" (some tombRecord)).2 = 3 ∧
        countGets
          (contendedAdapter.removeFinalizer [] "controller.cattle.io/a" (some tombRecord)).2 = 3) :=
  ⟨(C20_removeFinalizer_error_classes conflictAdapter [] "controller.cattle.io/a"
      (some tombRecord)).1 [] [Event.get "" "r1"] Site.removeFinalizer "r1" tombReleased
      (by decide) (by decide),
    (C20_removeFinalizer_error_classes conflictAdapter [] "controller.cattle.io/a"
      (some tombRecord)).2.1 [Event.update Site.removeFinalizer "r1" tombReleased] [] "" "r1"
      "not found" (by decide) (by decide),
    (C20_removeFinalizer_error_classes contendedAdapter [] "controller.cattle.io/a"
      (some tombRecord)).2.2.2 tombRecord tombMeta rfl rfl
      (fun _ _ _ => Option.some_ne_none _) (fun _ _ _ => ⟨tombRecord, tombMeta, rfl, rfl⟩)⟩

theorem C15_keys_injective_witness :
    scopedAdapter.constructFinalizerKey ≠ demoAdapter.constructFinalizerKey :=
  C15_keys_injective.2.1 scopedAdapter demoAdapter rfl rfl

end lifecycle
